import Mathlib

set_option maxRecDepth 100000

/-!
Verification of the GraphQL response resolver
(`pkg/engine/resolve/resolve.go`).

The development is a shallow embedding of the resolver at the level of
parsed JSON values: the Go code manipulates raw byte slices through the
`jsonparser` library, and we model a byte slice holding a JSON document
as the parsed `Json` value together with the function `jsonRawBytes`
that recovers the bytes `jsonparser` hands back for that value
(`jsonparser.Get`, `ArrayEach` and `ObjectEach` strip the surrounding
quotes of string values, which is why `jsonRawBytes` differs from
`serializeJson` exactly at top-level strings).  `Option Json` models a
byte slice that may be empty/absent (`none` = empty bytes).

Plan trees are embedded fetch-free: `Object.Fetch` is always `nil` in
the fragment we verify (so `resultSet` buffers never exist and every
field reads the parent data), which is the part of the tree walker the
claims about nullability, arrays, merging and streaming quantify over.
Goroutine-based code (`resolveArrayAsynchronous`) is modelled by its
deterministic data flow: each element task runs on a clone of the
context and writes its own buffer; the one-slot error channel is
modelled as the first (lowest-index) non-`errTypeNameSkipped` error,
and the places where the observable behaviour could depend on which
error wins the race are noted at the definition.

Recursion over the plan tree is fuel-indexed so that every definition
is executable and kernel-reducible; `none` marks fuel exhaustion and
every theorem about a run quantifies over (or instantiates) the fuel.
-/

/-! ## JSON byte model -/

mutual
/-- A parsed JSON value.  Numbers keep their source numeral so that
re-serialization is byte-exact. -/
inductive Json where
  | null
  | boolean (b : Bool)
  | num (s : String)
  | str (s : String)
  | arr (elems : JsonList)
  | obj (fields : JsonObj)
/-- List of JSON values (spine made explicit so that mutual structural
recursion over values is available). -/
inductive JsonList where
  | nil
  | cons (hd : Json) (tl : JsonList)
/-- Fields of a JSON object, in document order. -/
inductive JsonObj where
  | nil
  | cons (key : String) (val : Json) (tl : JsonObj)
end

/-- The byte constants of resolve.go (`lBrace` …).  Braces are written
with their escape codes. -/
def lBrace : String := "\x7b"
def rBrace : String := "\x7d"
def lBrack : String := "["
def rBrack : String := "]"
def comma : String := ","
def colon : String := ":"
def quote : String := "\""
def quotedComma : String := "\",\""
def nullLiteral : String := "null"
def literalData : String := "data"
def literalErrors : String := "errors"
def literalMessage : String := "message"
def literalLocations : String := "locations"
def literalLine : String := "line"
def literalColumn : String := "column"
def literalPath : String := "path"
def literalExtensions : String := "extensions"
def unableToResolveMsg : String := "unable to resolve"
def emptyArrayBytes : String := "[]"
def slashLiteral : String := "/"
def backslashLiteral : String := "\\"

mutual
/-- Canonical serialization of a JSON value (the bytes of the document
it came from; all inputs we consider are in this canonical form). -/
def serializeJson : Json → String
  | .null => nullLiteral
  | .boolean b => if b then "true" else "false"
  | .num s => s
  | .str s => quote ++ s ++ quote
  | .arr es => lBrack ++ serializeJsonList es true ++ rBrack
  | .obj fs => lBrace ++ serializeJsonObj fs true ++ rBrace
def serializeJsonList : JsonList → Bool → String
  | .nil, _ => ""
  | .cons v tl, first =>
      (if first then "" else comma) ++ serializeJson v ++ serializeJsonList tl false
def serializeJsonObj : JsonObj → Bool → String
  | .nil, _ => ""
  | .cons k v tl, first =>
      (if first then "" else comma) ++ quote ++ k ++ quote ++ colon ++
        serializeJson v ++ serializeJsonObj tl false
end

/-- A possibly-empty byte slice holding a JSON document: `none` models
empty bytes (`len(data) == 0` in Go, e.g. after a failed
`jsonparser.Get`). -/
abbrev RData := Option Json

/-- The bytes `jsonparser.Get`/`ArrayEach`/`ObjectEach` return for a
value: the serialization, except that a top-level string is returned
without its quotes (jsonparser trims them). -/
def jsonRawBytes : RData → String
  | none => ""
  | some (.str s) => s
  | some v => serializeJson v

/-- First value bound to `key` in an object, in document order
(jsonparser's key search returns the first occurrence). -/
def jsonObjLookup : JsonObj → String → Option Json
  | .nil, _ => none
  | .cons k v tl, key => if k = key then some v else jsonObjLookup tl key

/-- Model of `jsonparser.Get(data, path...)`: walk object keys; `none`
models the `KeyPathNotFound`/parse error (nil value bytes).  Array
index keys (`"[0]"`) are not modelled; the resolver only uses them in
the federation `_entities` path, which is matched structurally where
needed. -/
def jsonGet : RData → List String → RData
  | none, _ => none
  | some v, [] => some v
  | some (.obj fs), k :: ks =>
      match jsonObjLookup fs k with
      | some v => jsonGet (some v) ks
      | none => none
  | some _, _ :: _ => none

/-- Elements of the array found at `path` below `data`, as collected by
`jsonparser.ArrayEach` in `resolveArray`: each element is its own
(sub-)document.  A missing path or a non-array value yields no
elements. -/
def collectArrayItems (data : RData) (path : List String) : List RData :=
  match jsonGet data path with
  | some (.arr es) => toListOfItems es
  | _ => []
where
  toListOfItems : JsonList → List RData
    | .nil => []
    | .cons v tl => some v :: toListOfItems tl

/-! ## Buffers, errors and the context -/

/-- `BufPair` (resolve.go): a pair of append-only byte buffers. -/
structure BufPair where
  data : String
  errors : String
deriving DecidableEq, Repr

def emptyBufPair : BufPair := { data := "", errors := "" }

/-- The sentinel errors of resolve.go that drive control flow
(`errNonNullableFieldValueIsNull`, `errTypeNameSkipped`,
`errHeaderPathInvalid`, the `validateContext` failure, the
`jsonparser` key-not-found error surfaced by the template renderers
and the unknown-variable-source error of `InputTemplate.Render`). -/
inductive GoError where
  | nonNullableFieldValueIsNull
  | typeNameSkipped
  | headerPathInvalid
  | contextNotReset
  | keyPathNotFound
  | variableSourceUnknown
deriving DecidableEq, Repr

/-- `Position` (resolve.go). -/
structure Position where
  line : Nat
  column : Nat
deriving DecidableEq, Repr

/-- A queued `patch` (resolve.go): `extraPath = none` models a nil
slice. -/
structure RPatch where
  path : String
  extraPath : Option String
  data : String
  index : Int
deriving DecidableEq, Repr

/-- The per-request `Context` (resolve.go).  `usedBuffers` (pool
bookkeeping with no observable output) and the hooks (absent in the
fetch-free fragment) are not carried.  `pathPfx` is the source's path
prefix field. -/
structure Ctx where
  vars : RData
  headers : List (String × List String)
  pathElements : List String
  patches : List RPatch
  currentPatch : Int
  maxPatch : Int
  pathPfx : String
  position : Position

/-- `NewContext`: the freshly reset context. -/
def newCtx : Ctx :=
  { vars := none, headers := [], pathElements := [], patches := [],
    currentPatch := -1, maxPatch := -1, pathPfx := "", position := ⟨0, 0⟩ }

def Ctx.setPosition (c : Ctx) (p : Position) : Ctx := { c with position := p }

def Ctx.addPathElement (c : Ctx) (e : String) : Ctx :=
  { c with pathElements := c.pathElements ++ [e] }

/-- `addIntegerPathElement` (via `strconv.Itoa`). -/
def Ctx.addIntegerPathElement (c : Ctx) (i : Nat) : Ctx :=
  c.addPathElement (toString i)

def Ctx.removeLastPathElement (c : Ctx) : Ctx :=
  { c with pathElements := c.pathElements.dropLast }

/-- The element part of `Context.path()`: every element is written
prefixed by a slash, except that the first element is skipped when it
equals `data`. -/
def joinPathElements : List String → String
  | [] => ""
  | e :: rest =>
      (if e = literalData then "" else slashLiteral ++ e) ++
        String.join (rest.map (fun x => slashLiteral ++ x))

/-- `Context.path()`. -/
def Ctx.path (c : Ctx) : String :=
  (if c.pathPfx.length ≠ 0 then c.pathPfx else slashLiteral ++ literalData) ++
    joinPathElements c.pathElements

/-- `Context.addPatch`. -/
def Ctx.addPatch (c : Ctx) (index : Int) (path : String) (extraPath : Option String)
    (data : String) : Ctx :=
  { c with patches := c.patches ++ [⟨path, extraPath, data, index⟩],
           maxPatch := c.maxPatch + 1 }

/-- `Context.Clone()`: a deep copy of every field we model (the source
additionally starts the clone with an empty buffer-lease set, which we
do not carry). -/
def Ctx.clone (c : Ctx) : Ctx := c

/-- `validateContext` (resolve.go line 399). -/
def validateContext (ctx : Ctx) : Option GoError :=
  if ctx.maxPatch ≠ -1 ∨ ctx.currentPatch ≠ -1 then some .contextNotReset else none

/-! ## BufPair operations -/

/-- `BufPair.WriteErr`: serialize one GraphQL error object into the
errors buffer, comma-separated from a previous one; `none` models a
nil byte slice for the optional parts. -/
def WriteErr (b : BufPair) (message : String)
    (locations path extensions : Option String) : BufPair :=
  let e := (if b.errors.length ≠ 0 then comma else "") ++
    lBrace ++ quote ++ literalMessage ++ quote ++ colon ++ quote ++ message ++ quote ++
    (match locations with
     | some l => comma ++ quote ++ literalLocations ++ quote ++ colon ++ l
     | none => "") ++
    (match path with
     | some p => comma ++ quote ++ literalPath ++ quote ++ colon ++ p
     | none => "") ++
    (match extensions with
     | some x => comma ++ quote ++ literalExtensions ++ quote ++ colon ++ x
     | none => "") ++
    rBrace
  { b with errors := b.errors ++ e }

/-- `MergeBufPairData` (resolve.go line 1750): returns the updated
`(from, to)` pair (binders renamed `frm`/`dst`, Lean keywords) — the source resets `from.data` after the copy. -/
def MergeBufPairData (frm dst : BufPair) (prefixDataWithComma : Bool) :
    BufPair × BufPair :=
  if frm.data.length = 0 then (frm, dst)
  else
    ({ frm with data := "" },
     { dst with data := dst.data ++ (if prefixDataWithComma then comma else "") ++ frm.data })

/-- `MergeBufPairErrors` (resolve.go line 1761). -/
def MergeBufPairErrors (frm dst : BufPair) : BufPair × BufPair :=
  if frm.errors.length = 0 then (frm, dst)
  else
    ({ frm with errors := "" },
     { dst with errors := dst.errors ++ (if dst.errors.length ≠ 0 then comma else "") ++ frm.errors })

/-- `MergeBufPairs`. -/
def MergeBufPairs (frm dst : BufPair) (prefixDataWithComma : Bool) :
    BufPair × BufPair :=
  let (frm, dst) := MergeBufPairData frm dst prefixDataWithComma
  MergeBufPairErrors frm dst

def resolveNull (b : String) : String := b ++ nullLiteral
def resolveEmptyObject (b : String) : String := b ++ lBrace ++ rBrace
def resolveEmptyArray (b : String) : String := b ++ lBrack ++ rBrack

/-- `addResolveError` (resolve.go line 900): write the synthetic
`unable to resolve` error with the current position as its location
and, when the path-element stack is non-empty, the stack as its
path. -/
def addResolveError (ctx : Ctx) (objectBuf : BufPair) : BufPair :=
  let locations :=
    lBrack ++ lBrace ++ quote ++ literalLine ++ quote ++ colon ++ toString ctx.position.line ++
      comma ++ quote ++ literalColumn ++ quote ++ colon ++ toString ctx.position.column ++
      rBrace ++ rBrack
  let pathBytes : Option String :=
    if ctx.pathElements.length > 0 then
      some (lBrack ++ quote ++ String.intercalate quotedComma ctx.pathElements ++ quote ++ rBrack)
    else none
  WriteErr objectBuf unableToResolveMsg (some locations) pathBytes none

/-! ## Plan tree -/

/-- `Defer` (resolve.go line 1240). -/
structure DeferCfg where
  enabled : Bool
  patchIndex : Int
deriving DecidableEq, Repr

/-- `Stream` (resolve.go line 1477). -/
structure StreamCfg where
  enabled : Bool
  initialBatchSize : Int
  patchIndex : Int
deriving DecidableEq, Repr

mutual
/-- The plan-tree `Node` variants of resolve.go, in the fetch-free
fragment: `Object.Fetch` is nil, so fields carry no buffer selector
(`HasBuffer`/`BufferID` read the parent data when no result set
exists).  `string`'s path is an `Option` because the source
distinguishes a nil path (`str.Path == nil`) from an empty one. -/
inductive Node where
  | object (nullable : Bool) (path : List String) (fields : List ObjField)
  | emptyObject
  | array (nullable : Bool) (path : List String) (resolveAsynchronous : Bool)
      (item : Node) (stream : StreamCfg)
  | emptyArray
  | nullValue (deferCfg : DeferCfg)
  | string (path : Option (List String)) (nullable : Bool)
  | boolean (path : List String) (nullable : Bool)
  | integer (path : List String) (nullable : Bool)
  | float (path : List String) (nullable : Bool)
/-- A `Field` of an Object (name, value, position, optional
`OnTypeName`). -/
inductive ObjField where
  | mk (name : String) (value : Node) (position : Position) (onTypeName : Option String)
end

def ObjField.name : ObjField → String
  | .mk n _ _ _ => n

def ObjField.value : ObjField → Node
  | .mk _ v _ _ => v

def ObjField.position : ObjField → Position
  | .mk _ _ p _ => p

def ObjField.onTypeName : ObjField → Option String
  | .mk _ _ _ t => t

/-- The `.(*Object)` type test in resolveObject line 1019. -/
def Node.isObjectNode : Node → Bool
  | .object _ _ _ => true
  | _ => false

def typenameLiteral : String := "__typename"

/-- Result of one resolver call: the threaded context, the caller's
buffer pair after the call's writes, and the returned Go error
(`none` = nil). -/
structure RunRes where
  ctx : Ctx
  buf : BufPair
  err : Option GoError

/-- The type of the recursive `resolveNode` call threaded through the
loop helpers (instantiated with `resolveNode fuel`). -/
abbrev ResolveChild := Ctx → Node → RData → BufPair → Option RunRes

/-! ## Leaf resolvers -/

/-- `resolveInteger`: require a Number at the path, else null / error by
nullability. -/
def resolveInteger (path : List String) (nullable : Bool) (data : RData)
    (integerBuf : BufPair) : BufPair × Option GoError :=
  match jsonGet data path with
  | some (.num s) => ({ integerBuf with data := integerBuf.data ++ s }, none)
  | _ =>
      if !nullable then (integerBuf, some .nonNullableFieldValueIsNull)
      else ({ integerBuf with data := resolveNull integerBuf.data }, none)

/-- `resolveFloat` (identical shape to `resolveInteger`). -/
def resolveFloat (path : List String) (nullable : Bool) (data : RData)
    (floatBuf : BufPair) : BufPair × Option GoError :=
  match jsonGet data path with
  | some (.num s) => ({ floatBuf with data := floatBuf.data ++ s }, none)
  | _ =>
      if !nullable then (floatBuf, some .nonNullableFieldValueIsNull)
      else ({ floatBuf with data := resolveNull floatBuf.data }, none)

/-- `resolveBoolean`. -/
def resolveBoolean (path : List String) (nullable : Bool) (data : RData)
    (booleanBuf : BufPair) : BufPair × Option GoError :=
  match jsonGet data path with
  | some (.boolean b) =>
      ({ booleanBuf with data := booleanBuf.data ++ (if b then "true" else "false") }, none)
  | _ =>
      if !nullable then (booleanBuf, some .nonNullableFieldValueIsNull)
      else ({ booleanBuf with data := resolveNull booleanBuf.data }, none)

/-- `unicode.IsLetter(rune(data[0]))` on the first byte (inputs are
ASCII). -/
def firstCharIsLetter (s : String) : Bool :=
  match s.data with
  | c :: _ => c.isAlpha
  | [] => false

/-- `resolveString`.  Step 1 (nil path, non-empty data) accepts the
bytes as-is when they parse as a JSON string or begin with a letter;
at the value level the parse-as-string test is `data` being a string
value (byte-level divergence is possible only for a bare string input
that starts with a non-letter, which no claim exercises). -/
def resolveString (path : Option (List String)) (nullable : Bool) (data : RData)
    (stringBuf : BufPair) : BufPair × Option GoError :=
  let dataBytes := jsonRawBytes data
  let step1 : Option String ⊕ (BufPair × Option GoError) :=
    if dataBytes.length ≠ 0 ∧ path = none then
      let isStringType : Bool := match data with | some (.str _) => true | _ => false
      if isStringType ∨ firstCharIsLetter dataBytes then Sum.inl (some dataBytes)
      else if !nullable then Sum.inr (stringBuf, some .nonNullableFieldValueIsNull)
      else Sum.inr ({ stringBuf with data := resolveNull stringBuf.data }, none)
    else Sum.inl none
  match step1 with
  | .inr r => r
  | .inl step1Value =>
      let step2 : Option String ⊕ (BufPair × Option GoError) :=
        match step1Value with
        | some v => Sum.inl (some v)
        | none =>
            match jsonGet data (path.getD []) with
            | some (.str s) => Sum.inl (some s)
            | _ =>
                if !nullable then Sum.inr (stringBuf, some .nonNullableFieldValueIsNull)
                else Sum.inr ({ stringBuf with data := resolveNull stringBuf.data }, none)
      match step2 with
      | .inr r => r
      | .inl (some v) =>
          ({ stringBuf with data := stringBuf.data ++ quote ++ v ++ quote }, none)
      | .inl none => (stringBuf, some .nonNullableFieldValueIsNull)

/-- `preparePatch`: record a patch at the current context path. -/
def preparePatch (ctx : Ctx) (patchIndex : Int) (extraPath : Option String)
    (data : String) : Ctx :=
  ctx.addPatch patchIndex ctx.path extraPath data

/-! ## Object resolution -/

/-- The field loop of `resolveObject` (lines 969-1040), one iteration
per field, with the loop state (`typeNameSkip`, `first`, the shared
`fieldBuf`) passed explicitly; the `[]` case is the post-loop
handling. -/
def resolveObjectFields (resolveChild : ResolveChild) (nullable : Bool) :
    List ObjField → Ctx → RData → BufPair → BufPair → Bool → Bool → Option RunRes
  | [], ctx, _, objectBuf, _, typeNameSkip, first =>
      if first then
        if typeNameSkip then some ⟨ctx, objectBuf, some .typeNameSkipped⟩
        else if !nullable then
          some ⟨ctx, addResolveError ctx objectBuf, some .nonNullableFieldValueIsNull⟩
        else some ⟨ctx, { objectBuf with data := resolveNull objectBuf.data }, none⟩
      else some ⟨ctx, { objectBuf with data := objectBuf.data ++ rBrace }, none⟩
  | f :: rest, ctx, data, objectBuf, fieldBuf, typeNameSkip, first =>
      let fieldData := data
      let skipThis : Bool :=
        match f.onTypeName with
        | some tn => jsonRawBytes (jsonGet fieldData [typenameLiteral]) ≠ tn
        | none => false
      if skipThis then
        resolveObjectFields resolveChild nullable rest ctx data objectBuf fieldBuf true first
      else
        let objectBuf := { objectBuf with data :=
          objectBuf.data ++ (if first then lBrace else comma) ++
            quote ++ f.name ++ quote ++ colon }
        let ctx := (ctx.addPathElement f.name).setPosition f.position
        match resolveChild ctx f.value fieldData fieldBuf with
        | none => none
        | some r =>
            let ctx := r.ctx.removeLastPathElement
            match r.err with
            | some e =>
                if e = .typeNameSkipped then
                  some ⟨ctx, { objectBuf with data := resolveEmptyObject "" }, none⟩
                else if e = .nonNullableFieldValueIsNull then
                  let objectBuf := { objectBuf with data := "" }
                  let (_, objectBuf) := MergeBufPairErrors r.buf objectBuf
                  if nullable then
                    some ⟨ctx, { objectBuf with data := resolveNull objectBuf.data }, none⟩
                  else
                    let objectBuf :=
                      if f.value.isObjectNode then objectBuf else addResolveError ctx objectBuf
                    some ⟨ctx, objectBuf, some .nonNullableFieldValueIsNull⟩
                else some ⟨ctx, objectBuf, some e⟩
            | none =>
                let (fieldBuf, objectBuf) := MergeBufPairs r.buf objectBuf false
                resolveObjectFields resolveChild nullable rest ctx data objectBuf fieldBuf
                  typeNameSkip false

/-- `resolveObject` (fetch-free: `object.Fetch == nil`, so no result
set is allocated and every field reads the parent data). -/
def resolveObject (resolveChild : ResolveChild) (nullable : Bool) (path : List String)
    (fields : List ObjField) (ctx : Ctx) (data : RData) (objectBuf : BufPair) :
    Option RunRes :=
  let step : RData ⊕ RunRes :=
    if path.length ≠ 0 then
      let dataAtPath := jsonGet data path
      if (jsonRawBytes dataAtPath).length = 0 then
        if nullable then
          Sum.inr ⟨ctx, { objectBuf with data := resolveNull objectBuf.data }, none⟩
        else Sum.inr ⟨ctx, addResolveError ctx objectBuf, some .nonNullableFieldValueIsNull⟩
      else Sum.inl dataAtPath
    else Sum.inl data
  match step with
  | .inr r => some r
  | .inl data => resolveObjectFields resolveChild nullable fields ctx data objectBuf emptyBufPair false true

/-! ## Array resolution -/

/-- The loop of `resolveArraySynchronous` (lines 711-742): streaming
elements past the initial batch are only enqueued as patches; the rest
resolve into the shared `itemBuf` and are merged in order. -/
def resolveArraySynchronousLoop (resolveChild : ResolveChild) (nullable : Bool)
    (item : Node) (stream : StreamCfg) :
    List RData → Nat → Ctx → BufPair → BufPair → Bool → Nat → Option RunRes
  | [], _, ctx, arrayBuf, _, _, _ =>
      some ⟨ctx, { arrayBuf with data := arrayBuf.data ++ rBrack }, none⟩
  | d :: rest, i, ctx, arrayBuf, itemBuf, hasPreviousItem, dataWritten =>
      if stream.enabled ∧ (i : Int) > stream.initialBatchSize - 1 then
        let ctx := ctx.addIntegerPathElement i
        let ctx := preparePatch ctx stream.patchIndex none (jsonRawBytes d)
        let ctx := ctx.removeLastPathElement
        resolveArraySynchronousLoop resolveChild nullable item stream rest (i + 1) ctx
          arrayBuf itemBuf hasPreviousItem dataWritten
      else
        let ctx := ctx.addIntegerPathElement i
        match resolveChild ctx item d itemBuf with
        | none => none
        | some r =>
            let ctx := r.ctx.removeLastPathElement
            match r.err with
            | some e =>
                if e = .nonNullableFieldValueIsNull ∧ nullable then
                  some ⟨ctx, { arrayBuf with data := resolveNull "" }, none⟩
                else if e = .typeNameSkipped then
                  resolveArraySynchronousLoop resolveChild nullable item stream rest (i + 1)
                    ctx arrayBuf r.buf hasPreviousItem dataWritten
                else some ⟨ctx, arrayBuf, some e⟩
            | none =>
                let dataWritten := dataWritten + r.buf.data.length
                let (itemBuf, arrayBuf) := MergeBufPairs r.buf arrayBuf hasPreviousItem
                let hasPreviousItem :=
                  if !hasPreviousItem ∧ dataWritten ≠ 0 then true else hasPreviousItem
                resolveArraySynchronousLoop resolveChild nullable item stream rest (i + 1)
                  ctx arrayBuf itemBuf hasPreviousItem dataWritten

/-- `resolveArraySynchronous`. -/
def resolveArraySynchronous (resolveChild : ResolveChild) (nullable : Bool) (item : Node)
    (stream : StreamCfg) (items : List RData) (ctx : Ctx) (arrayBuf : BufPair) :
    Option RunRes :=
  let arrayBuf := { arrayBuf with data := arrayBuf.data ++ lBrack }
  resolveArraySynchronousLoop resolveChild nullable item stream items 0 ctx arrayBuf
    emptyBufPair false 0

/-- The per-element tasks of `resolveArrayAsynchronous`: each element
resolves on a clone of the context with its index pushed, into a fresh
buffer pair; the clone (and hence its path/patch mutations) is
discarded (`ctx.Free()` in the goroutine). -/
def resolveArrayItemsAsync (resolveChild : ResolveChild) (item : Node) :
    List RData → Nat → Ctx → Option (List (BufPair × Option GoError))
  | [], _, _ => some []
  | d :: rest, i, ctx =>
      let cloned := (ctx.clone).addPathElement (toString i)
      match resolveChild cloned item d emptyBufPair with
      | none => none
      | some r =>
          match resolveArrayItemsAsync resolveChild item rest (i + 1) ctx with
          | none => none
          | some l => some ((r.buf, r.err) :: l)

/-- The one-slot error channel of `resolveArrayAsynchronous`, modelled
as the first (lowest-index) element error that is not
`errTypeNameSkipped`.  The real channel keeps whichever such error
arrives first; the continuation only tests the winner against
`errNonNullableFieldValueIsNull`, and in the fetch-free fragment every
non-skip element error is that error, so the choice of winner does not
affect the observable result. -/
def firstAsyncError : List (BufPair × Option GoError) → Option GoError
  | [] => none
  | (_, some e) :: rest =>
      if e = .typeNameSkipped then firstAsyncError rest else some e
  | (_, none) :: rest => firstAsyncError rest

/-- The post-join merge loop of `resolveArrayAsynchronous` (lines
797-807). -/
def mergeAsyncResults : List (BufPair × Option GoError) → BufPair → Bool → Nat → BufPair
  | [], arrayBuf, _, _ => arrayBuf
  | (b, _) :: rest, arrayBuf, hasPreviousItem, dataWritten =>
      let dataWritten := dataWritten + b.data.length
      let (_, arrayBuf) := MergeBufPairs b arrayBuf hasPreviousItem
      let hasPreviousItem :=
        if !hasPreviousItem ∧ dataWritten ≠ 0 then true else hasPreviousItem
      mergeAsyncResults rest arrayBuf hasPreviousItem dataWritten

/-- `resolveArrayAsynchronous`. -/
def resolveArrayAsynchronous (resolveChild : ResolveChild) (nullable : Bool) (item : Node)
    (items : List RData) (ctx : Ctx) (arrayBuf : BufPair) : Option RunRes :=
  let arrayBuf := { arrayBuf with data := arrayBuf.data ++ lBrack }
  match resolveArrayItemsAsync resolveChild item items 0 ctx with
  | none => none
  | some results =>
      match firstAsyncError results with
      | some e =>
          if e = .nonNullableFieldValueIsNull ∧ nullable then
            some ⟨ctx, { arrayBuf with data := resolveNull "" }, none⟩
          else some ⟨ctx, arrayBuf, some e⟩
      | none =>
          let arrayBuf := mergeAsyncResults results arrayBuf false 0
          some ⟨ctx, { arrayBuf with data := arrayBuf.data ++ rBrack }, none⟩

/-- `resolveArray` (lines 670-699): empty-array fast path, element
collection, empty-result nullability handling, then the
synchronous/asynchronous dispatch. -/
def resolveArray (resolveChild : ResolveChild) (nullable : Bool) (path : List String)
    (resolveAsynchronous : Bool) (item : Node) (stream : StreamCfg) (ctx : Ctx)
    (data : RData) (arrayBuf : BufPair) : Option RunRes :=
  if jsonRawBytes data = emptyArrayBytes then
    some ⟨ctx, { arrayBuf with data := resolveEmptyArray arrayBuf.data }, none⟩
  else
    let arrayItems := collectArrayItems data path
    if arrayItems.length = 0 then
      if !nullable then
        some ⟨ctx, { arrayBuf with data := resolveEmptyArray arrayBuf.data },
          some .nonNullableFieldValueIsNull⟩
      else some ⟨ctx, { arrayBuf with data := resolveNull arrayBuf.data }, none⟩
    else
      if resolveAsynchronous ∧ !stream.enabled then
        resolveArrayAsynchronous resolveChild nullable item arrayItems ctx arrayBuf
      else
        resolveArraySynchronous resolveChild nullable item stream arrayItems ctx arrayBuf

/-! ## resolveNode -/

/-- `resolveNode` (lines 368-397), fuel-indexed: `none` is fuel
exhaustion, never produced by the Go code. -/
def resolveNode : Nat → Ctx → Node → RData → BufPair → Option RunRes
  | 0, _, _, _, _ => none
  | fuel + 1, ctx, node, data, bufPair =>
      match node with
      | .object nullable path fields =>
          resolveObject (resolveNode fuel) nullable path fields ctx data bufPair
      | .array nullable path asyn item stream =>
          resolveArray (resolveNode fuel) nullable path asyn item stream ctx data bufPair
      | .nullValue dcfg =>
          let ctx :=
            if dcfg.enabled then preparePatch ctx dcfg.patchIndex none (jsonRawBytes data)
            else ctx
          some ⟨ctx, { bufPair with data := resolveNull bufPair.data }, none⟩
      | .string p nullable =>
          let (buf, e) := resolveString p nullable data bufPair
          some ⟨ctx, buf, e⟩
      | .boolean p nullable =>
          let (buf, e) := resolveBoolean p nullable data bufPair
          some ⟨ctx, buf, e⟩
      | .integer p nullable =>
          let (buf, e) := resolveInteger p nullable data bufPair
          some ⟨ctx, buf, e⟩
      | .float p nullable =>
          let (buf, e) := resolveFloat p nullable data bufPair
          some ⟨ctx, buf, e⟩
      | .emptyObject =>
          some ⟨ctx, { bufPair with data := resolveEmptyObject bufPair.data }, none⟩
      | .emptyArray =>
          some ⟨ctx, { bufPair with data := resolveEmptyArray bufPair.data }, none⟩

/-! ## Response extraction and the envelope writer -/

/-- `ProcessResponseConfig`. -/
structure ProcessResponseConfig where
  extractGraphqlResponse : Bool
  extractFederationEntities : Bool

/-- Result of `extractResponse`: the bytes written into the data buffer
are carried as the parsed value they serialize (plus `none` for no
write), the errors side as the literal bytes produced by
`WriteErr`. -/
structure ExtractedResponse where
  data : RData
  errors : String

/-- Writing a value's bytes into a buffer and later re-reading them as
a document: only a value with empty raw bytes reads back as absent. -/
def reparseBytes (v : Json) : RData :=
  if (jsonRawBytes (some v)).length = 0 then none else some v

/-- Key lookup inside one JSON value (`jsonparser.EachKey` on a
non-object finds nothing). -/
def jsonValueLookup (v : Json) (key : String) : Option Json :=
  match v with
  | .obj fs => jsonObjLookup fs key
  | _ => none

/-- The per-element error extraction of `extractResponse` (lines
419-438): elements without a `message` key are skipped; the other
parts are passed when present (jsonparser hands back their raw,
quote-trimmed bytes). -/
def writeResponseErrors : JsonList → BufPair → BufPair
  | .nil, b => b
  | .cons e tl, b =>
      let message := (jsonValueLookup e literalMessage).map (fun m => jsonRawBytes (some m))
      let locations := (jsonValueLookup e literalLocations).map (fun l => jsonRawBytes (some l))
      let path := (jsonValueLookup e literalPath).map (fun p => jsonRawBytes (some p))
      let extensions :=
        (jsonValueLookup e literalExtensions).map (fun x => jsonRawBytes (some x))
      let b := match message with
        | some m => WriteErr b m locations path extensions
        | none => b
      writeResponseErrors tl b

/-- `extractResponse` (lines 406-448). -/
def extractResponse (responseData : RData) (cfg : ProcessResponseConfig) :
    ExtractedResponse :=
  if (jsonRawBytes responseData).length = 0 then ⟨none, ""⟩
  else if !cfg.extractGraphqlResponse then ⟨responseData, ""⟩
  else
    let errs :=
      match jsonGet responseData [literalErrors] with
      | some (.arr es) => (writeResponseErrors es emptyBufPair).errors
      | _ => ""
    let dta :=
      match jsonGet responseData [literalData] with
      | none => none
      | some v =>
          if cfg.extractFederationEntities then
            match jsonValueLookup v "_entities" with
            | some (.arr (.cons e _)) => reparseBytes e
            | _ => none
          else reparseBytes v
    ⟨dta, errs⟩

/-- `writeGraphqlResponse` (lines 1834-1864); the writer is modelled as
the returned byte string (writes do not fail). -/
def writeGraphqlResponse (buf : BufPair) (ignoreData : Bool) : String :=
  let hasErrors := buf.errors.length ≠ 0
  let hasData := buf.data.length ≠ 0 ∧ !ignoreData
  lBrace ++
    (if hasErrors then
      quote ++ literalErrors ++ quote ++ colon ++ lBrack ++ buf.errors ++ rBrack ++ comma
     else "") ++
    quote ++ literalData ++ quote ++ colon ++
    (if hasData then buf.data else nullLiteral) ++
    rBrace

/-- `ResolveGraphQLResponse` (lines 450-472): extract the caller
envelope (always with `ExtractGraphqlResponse: true`), walk the plan
against the extracted data, then append the envelope errors and
serialize.  The result is the bytes written to the writer paired with
the returned error (`none` = nil); a non-`errNonNullableFieldValueIsNull`
walk error returns before anything is written. -/
def ResolveGraphQLResponse (fuel : Nat) (ctx : Ctx) (responseNode : Node) (data : RData) :
    Option (String × Option GoError) :=
  let buf := emptyBufPair
  let responseBuf := extractResponse data ⟨true, false⟩
  match resolveNode fuel ctx responseNode responseBuf.data buf with
  | none => none
  | some r =>
      let step : (Bool × BufPair) ⊕ (String × Option GoError) :=
        match r.err with
        | some e =>
            if e = .nonNullableFieldValueIsNull then Sum.inl (true, r.buf)
            else Sum.inr ("", some e)
        | none => Sum.inl (false, r.buf)
      match step with
      | .inr out => some out
      | .inl (ignoreData, buf) =>
          let buf :=
            if responseBuf.errors.length > 0 then
              (MergeBufPairErrors { data := "", errors := responseBuf.errors } buf).2
            else buf
          some (writeGraphqlResponse buf ignoreData, none)

/-! ## Input template renderers -/

/-- `validHeaderFieldByte` of net/textproto: ASCII token characters
(letters, digits, and the bytes 33 35 36 37 38 39 42 43 45 46 94 95 96
124 126). -/
def validHeaderFieldChar (c : Char) : Bool :=
  let n := c.toNat
  (48 ≤ n ∧ n ≤ 57) ∨ (65 ≤ n ∧ n ≤ 90) ∨ (97 ≤ n ∧ n ≤ 122) ∨
    n ∈ [33, 35, 36, 37, 38, 39, 42, 43, 45, 46, 94, 95, 96, 124, 126]

/-- The canonicalization loop of `textproto.canonicalMIMEHeaderKey`:
uppercase at the start and after each hyphen, lowercase elsewhere. -/
def canonicalizeHeaderChars : List Char → Bool → List Char
  | [], _ => []
  | c :: rest, upper =>
      let c :=
        if upper ∧ 97 ≤ c.toNat ∧ c.toNat ≤ 122 then Char.ofNat (c.toNat - 32)
        else if !upper ∧ 65 ≤ c.toNat ∧ c.toNat ≤ 90 then Char.ofNat (c.toNat + 32)
        else c
      c :: canonicalizeHeaderChars rest (c = '-')

/-- `textproto.CanonicalMIMEHeaderKey`: keys containing a byte that is
not a valid header-field byte are returned unchanged. -/
def canonicalMIMEHeaderKey (s : String) : String :=
  if s.data.all validHeaderFieldChar then ⟨canonicalizeHeaderChars s.data true⟩ else s

/-- The join loop of `renderHeaderVariable` for multi-valued headers
(lines 1392-1397). -/
def renderHeaderValuesLoop : List String → Nat → String
  | [], _ => ""
  | v :: rest, j => (if j ≠ 0 then comma else "") ++ v ++ renderHeaderValuesLoop rest (j + 1)

/-- `renderHeaderVariable` (lines 1376-1399), returning the bytes it
appends to the prepared input. -/
def renderHeaderVariable (ctx : Ctx) (path : List String) : Except GoError String :=
  match path with
  | [key] =>
      let canonicalName := canonicalMIMEHeaderKey key
      let value := ((ctx.headers.lookup canonicalName).getD [])
      match value with
      | [] => .ok ""
      | [v] => .ok v
      | vs => .ok (renderHeaderValuesLoop vs 0)
  | _ => .error .headerPathInvalid

mutual
/-- `renderGraphQLValue` (lines 1322-1374): transcode a JSON value to
GraphQL literal syntax.  At the value level the jsonparser iteration
callbacks cannot fail, so the rendering is total. -/
def renderGraphQLValue : Json → String
  | .str s => backslashLiteral ++ quote ++ s ++ backslashLiteral ++ quote
  | .obj fs => lBrace ++ renderGraphQLObjFields fs true ++ rBrace
  | .null => nullLiteral
  | .boolean b => if b then "true" else "false"
  | .arr es => lBrack ++ renderGraphQLArrElems es true ++ rBrack
  | .num s => s
/-- The `jsonparser.ObjectEach` loop of `renderGraphQLValue`: unquoted
key, colon, recursively rendered value, comma-separated. -/
def renderGraphQLObjFields : JsonObj → Bool → String
  | .nil, _ => ""
  | .cons k v tl, first =>
      (if !first then comma else "") ++ k ++ colon ++ renderGraphQLValue v ++
        renderGraphQLObjFields tl false
/-- The `jsonparser.ArrayEach` loop of `renderGraphQLValue`. -/
def renderGraphQLArrElems : JsonList → Bool → String
  | .nil, _ => ""
  | .cons v tl, first =>
      (if !first then comma else "") ++ renderGraphQLValue v ++ renderGraphQLArrElems tl false
end

/-- `renderContextVariable` (lines 1310-1320), returning the bytes it
appends. -/
def renderContextVariable (ctx : Ctx) (path : List String) (renderAsGraphQLValue : Bool) :
    Except GoError String :=
  match jsonGet ctx.vars path with
  | none => .error .keyPathNotFound
  | some v =>
      if !renderAsGraphQLValue then .ok (jsonRawBytes (some v))
      else .ok (renderGraphQLValue v)

/-- `renderObjectVariable` (lines 1301-1308). -/
def renderObjectVariable (data : RData) (path : List String) : Except GoError String :=
  match jsonGet data path with
  | none => .error .keyPathNotFound
  | some v => .ok (jsonRawBytes (some v))

/-! ## Helper notions used by the claim statements -/

/-- Values joined by commas: one value stands alone, several are
comma-separated, none give the empty string. -/
def commaJoined : List String → String
  | [] => ""
  | [s] => s
  | s :: rest => s ++ "," ++ commaJoined rest

/-- Comma-prefixed join (every element preceded by a comma). -/
def pcjoin : List String → String
  | [] => ""
  | s :: rest => "," ++ s ++ pcjoin rest

theorem commaJoined_cons (s : String) (rest : List String) :
    commaJoined (s :: rest) = s ++ pcjoin rest := by
  induction rest generalizing s with
  | nil => simp [commaJoined, pcjoin]
  | cons t ts ih =>
      simp only [commaJoined, pcjoin, ih t]
      simp [String.append_assoc]


/-- A byte buffer has length zero exactly when it is empty. -/
theorem string_length_eq_zero (s : String) : s.length = 0 ↔ s = "" := by
  constructor
  · intro h
    cases s with
    | mk l =>
        cases l with
        | nil => rfl
        | cons c cs => simp [String.length] at h
  · intro h
    subst h
    rfl

/-! ## Claim C3: BufPair merging -/

/-- C3 (counterexample): merging `from.data = "x"` into an empty
`to.data` with the flag set produces `",x"` — the code writes the
comma whenever the flag is set, without consulting whether `to.data`
already has data, while the claim requires the comma only when
`to.data` already has data (so it predicts `"x"` here). -/
theorem claim3_counterexample :
    (MergeBufPairData { data := "x", errors := "" } { data := "", errors := "" } true).2.data
      = "," ++ "x" ∧
    (MergeBufPairData { data := "x", errors := "" } { data := "", errors := "" } true).2.data
      ≠ "x" := by
  constructor
  · rfl
  · decide

/-- C3 (amended): `MergeBufPairData` appends `from.data` (when
non-empty) to `to.data` with a leading comma if and only if the
`prefixDataWithComma` flag is set — `to.data`'s own content is not
consulted — and resets `from.data`; `MergeBufPairErrors` appends
`from.errors` (when non-empty) with a leading comma if and only if
`to.errors` is non-empty, and resets `from.errors`. -/
theorem claim3_amended (frm dst : BufPair) (flag : Bool) :
    MergeBufPairData frm dst flag =
      (if frm.data = "" then (frm, dst)
       else ({ frm with data := "" },
             { dst with data := dst.data ++ (if flag then "," else "") ++ frm.data })) ∧
    MergeBufPairErrors frm dst =
      (if frm.errors = "" then (frm, dst)
       else ({ frm with errors := "" },
             { dst with errors :=
                 dst.errors ++ (if dst.errors = "" then "" else ",") ++ frm.errors })) := by
  constructor
  · by_cases h : frm.data = "" <;>
      simp [MergeBufPairData, h, string_length_eq_zero, comma]
  · by_cases h : frm.errors = "" <;>
      by_cases h2 : dst.errors = "" <;>
        simp [MergeBufPairErrors, h, h2, string_length_eq_zero, comma]

/-! ## Claim C5: the envelope writer -/

/-- C5 (confirmed): `writeGraphqlResponse` emits exactly one opening
brace; the `errors` key with the errors bytes wrapped in brackets and
a trailing comma if and only if the errors buffer is non-empty; always
the `data` key, whose value is the data bytes when `ignoreData` is
unset and the data buffer non-empty and the literal `null` otherwise;
and a closing brace. -/
theorem claim5_thm (buf : BufPair) (ignoreData : Bool) :
    writeGraphqlResponse buf ignoreData =
      "\x7b" ++
        (if buf.errors ≠ "" then "\"errors\":[" ++ buf.errors ++ "]," else "") ++
        "\"data\":" ++
        (if ignoreData = false ∧ buf.data ≠ "" then buf.data else "null") ++
      "\x7d" := by
  by_cases he : buf.errors = "" <;> cases ignoreData <;> by_cases hd : buf.data = "" <;>
    simp [writeGraphqlResponse, he, hd, string_length_eq_zero, lBrace, rBrace, lBrack,
      rBrack, comma, colon, quote, literalErrors, literalData, nullLiteral,
      String.append_assoc]

/-! ## Claim C6: header variables -/

theorem renderHeaderValuesLoop_pos (vs : List String) (j : Nat) :
    renderHeaderValuesLoop vs (j + 1) = pcjoin vs := by
  induction vs generalizing j with
  | nil => simp [renderHeaderValuesLoop, pcjoin]
  | cons v rest ih => simp [renderHeaderValuesLoop, pcjoin, comma, ih (j + 1)]

theorem renderHeaderValuesLoop_zero (vs : List String) :
    renderHeaderValuesLoop vs 0 = commaJoined vs := by
  cases vs with
  | nil => simp [renderHeaderValuesLoop, commaJoined]
  | cons v rest =>
      simp [renderHeaderValuesLoop, renderHeaderValuesLoop_pos, commaJoined_cons]

/-- C6 (confirmed): a header-variable segment fails with
*HeaderPathInvalid* exactly when its path does not have one element;
with a one-element path it appends the canonicalized MIME header's
values joined by commas (one value stands alone, an absent or empty
header appends nothing) and succeeds. -/
theorem claim6_thm (ctx : Ctx) (path : List String) :
    (renderHeaderVariable ctx path = .error .headerPathInvalid ↔ path.length ≠ 1) ∧
    (∀ key, path = [key] →
      renderHeaderVariable ctx path =
        .ok (commaJoined ((ctx.headers.lookup (canonicalMIMEHeaderKey key)).getD []))) := by
  constructor
  · constructor
    · intro h
      match path with
      | [] => simp
      | [k] =>
          exfalso
          simp only [renderHeaderVariable] at h
          rcases hv : (ctx.headers.lookup (canonicalMIMEHeaderKey k)).getD [] with _ | ⟨v, _ | ⟨w, ws⟩⟩ <;>
            simp [hv] at h
      | a :: b :: rest => simp
    · intro h
      match path with
      | [] => rfl
      | [k] => simp at h
      | a :: b :: rest => rfl
  · intro key hp
    subst hp
    simp only [renderHeaderVariable]
    rcases hv : (ctx.headers.lookup (canonicalMIMEHeaderKey key)).getD [] with _ | ⟨v, _ | ⟨w, ws⟩⟩
    · simp [commaJoined]
    · simp [commaJoined]
    · simp [renderHeaderValuesLoop_zero]

/-- Witness for C6: a request with a two-valued `Content-Type` header,
looked up through a non-canonical key. -/
theorem claim6_witness :
    renderHeaderVariable
        { newCtx with headers := [("Content-Type", ["a", "b"])] } ["content-type"] =
      .ok (commaJoined ["a", "b"]) :=
  (claim6_thm { newCtx with headers := [("Content-Type", ["a", "b"])] }
    ["content-type"]).2 "content-type" rfl

/-! ## Claim C7: context variables as GraphQL values -/

mutual
/-- Modelled from the spec's words for the GraphQL-literal transcoding
(used as the comparison point for `renderGraphQLValue`): strings
become backslash-escaped-quoted bytes, objects become
brace-wrapped comma-joined `key:value` lists with unquoted keys,
arrays become bracket-wrapped comma-joined element lists, and null,
booleans and numbers pass through unchanged. -/
def graphqlLiteral : Json → String
  | .null => "null"
  | .boolean b => if b then "true" else "false"
  | .num s => s
  | .str s => "\\\"" ++ s ++ "\\\""
  | .arr es => "[" ++ commaJoined (graphqlLiteralList es) ++ "]"
  | .obj fs => "\x7b" ++ commaJoined (graphqlLiteralFields fs) ++ "\x7d"
/-- Transcoded array elements, in order. -/
def graphqlLiteralList : JsonList → List String
  | .nil => []
  | .cons v tl => graphqlLiteral v :: graphqlLiteralList tl
/-- Transcoded object fields `key:value`, in order. -/
def graphqlLiteralFields : JsonObj → List String
  | .nil => []
  | .cons k v tl => (k ++ ":" ++ graphqlLiteral v) :: graphqlLiteralFields tl
end

mutual
theorem renderGraphQLValue_eq_spec (v : Json) :
    renderGraphQLValue v = graphqlLiteral v := by
  match v with
  | .null => rfl
  | .boolean b => rfl
  | .num s => rfl
  | .str s =>
      simp [renderGraphQLValue, graphqlLiteral, backslashLiteral, quote,
        String.append_assoc]
  | .arr es =>
      simp only [renderGraphQLValue, graphqlLiteral, lBrack, rBrack]
      rw [renderGraphQLArrElems_true es]
  | .obj fs =>
      simp only [renderGraphQLValue, graphqlLiteral, lBrace, rBrace]
      rw [renderGraphQLObjFields_true fs]
theorem renderGraphQLArrElems_true (es : JsonList) :
    renderGraphQLArrElems es true = commaJoined (graphqlLiteralList es) := by
  match es with
  | .nil => rfl
  | .cons v tl =>
      simp only [renderGraphQLArrElems, graphqlLiteralList, commaJoined_cons,
        Bool.not_true, if_neg, ite_false]
      rw [renderGraphQLValue_eq_spec v, renderGraphQLArrElems_false tl]
      simp
theorem renderGraphQLArrElems_false (es : JsonList) :
    renderGraphQLArrElems es false = pcjoin (graphqlLiteralList es) := by
  match es with
  | .nil => rfl
  | .cons v tl =>
      simp only [renderGraphQLArrElems, graphqlLiteralList, pcjoin, comma]
      rw [renderGraphQLValue_eq_spec v, renderGraphQLArrElems_false tl]
      simp [String.append_assoc]
theorem renderGraphQLObjFields_true (fs : JsonObj) :
    renderGraphQLObjFields fs true = commaJoined (graphqlLiteralFields fs) := by
  match fs with
  | .nil => rfl
  | .cons k v tl =>
      simp only [renderGraphQLObjFields, graphqlLiteralFields, commaJoined_cons]
      rw [renderGraphQLValue_eq_spec v, renderGraphQLObjFields_false tl]
      simp [colon, String.append_assoc]
theorem renderGraphQLObjFields_false (fs : JsonObj) :
    renderGraphQLObjFields fs false = pcjoin (graphqlLiteralFields fs) := by
  match fs with
  | .nil => rfl
  | .cons k v tl =>
      simp only [renderGraphQLObjFields, graphqlLiteralFields, pcjoin, comma, colon]
      rw [renderGraphQLValue_eq_spec v, renderGraphQLObjFields_false tl]
      simp [String.append_assoc]
end

/-- C7 (counterexample): with `renderAsGraphQLValue` unset and the
variables `\x7b"v":"abc"\x7d`, rendering the path `["v"]` appends
`abc` — the quote-trimmed bytes jsonparser extracted — and not the raw
JSON fragment `"abc"` of the value found at the path, as the claim
states. -/
theorem claim7_counterexample :
    renderContextVariable
        { newCtx with vars := some (.obj (.cons "v" (.str "abc") .nil)) } ["v"] false =
      .ok "abc" ∧
    serializeJson (.str "abc") = "\"abc\"" ∧ ("abc" : String) ≠ "\"abc\"" := by
  refine ⟨rfl, rfl, ?_⟩
  decide

/-- C7 (amended): for a context variable found at the segment's path,
rendering with `renderAsGraphQLValue` set transcodes the value to
GraphQL literal syntax exactly as the claim describes
(`graphqlLiteral`); with the flag unset it appends the value's
extracted bytes, which are the raw JSON fragment except that a
top-level string loses its surrounding quotes. -/
theorem claim7_amended (ctx : Ctx) (path : List String) (flag : Bool) (v : Json)
    (h : jsonGet ctx.vars path = some v) :
    renderContextVariable ctx path flag =
      .ok (if flag then graphqlLiteral v else jsonRawBytes (some v)) := by
  cases flag <;> simp [renderContextVariable, h, renderGraphQLValue_eq_spec]

/-- Witness for C7: transcoding the object value
`\x7b"a":[1,"x"]\x7d`. -/
theorem claim7_witness :
    renderContextVariable
        { newCtx with vars := some (.obj (.cons "w"
          (.obj (.cons "a" (.arr (.cons (.num "1") (.cons (.str "x") .nil))) .nil)) .nil)) }
        ["w"] true =
      .ok (if true then graphqlLiteral
        (.obj (.cons "a" (.arr (.cons (.num "1") (.cons (.str "x") .nil))) .nil))
      else jsonRawBytes (some (.obj (.cons "a"
        (.arr (.cons (.num "1") (.cons (.str "x") .nil))) .nil)))) :=
  claim7_amended _ ["w"] true _ rfl

/-! ## Concrete plans and data for the scenario claims -/

/-- The S1 plan: one object with a `hello` string field. -/
def s1Plan : Node :=
  .object false [] [ .mk "hello" (.string (some ["hello"]) false) ⟨0, 0⟩ none ]

/-- The S2 plan: S1 plus a non-nullable integer field `n`. -/
def s2Plan : Node :=
  .object false []
    [ .mk "hello" (.string (some ["hello"]) false) ⟨0, 0⟩ none
    , .mk "n" (.integer ["n"] false) ⟨0, 0⟩ none ]

/-- The S2 plan with a nullable root object. -/
def s2PlanNullableRoot : Node :=
  .object true []
    [ .mk "hello" (.string (some ["hello"]) false) ⟨0, 0⟩ none
    , .mk "n" (.integer ["n"] false) ⟨0, 0⟩ none ]

/-- A plan whose non-nullable leaf sits below a nested non-nullable
object field `o`. -/
def nestedPlan : Node :=
  .object false []
    [ .mk "o" (.object false [] [ .mk "n" (.integer ["n"] false) ⟨0, 0⟩ none ]) ⟨0, 0⟩ none ]

/-- The nested plan with a nullable root: the root catches the failure
arriving through the intermediate non-nullable object `o`. -/
def nestedPlanNullableRoot : Node :=
  .object true []
    [ .mk "o" (.object false [] [ .mk "n" (.integer ["n"] false) ⟨0, 0⟩ none ]) ⟨0, 0⟩ none ]

/-- The S2 data value. -/
def s2DataJson : Json := .obj (.cons "hello" (.str "world") .nil)

/-- The S2 data bytes as passed by the caller. -/
def s2Data : RData := some s2DataJson

/-- The S2 data wrapped in a response envelope, the form in which the
tree walk actually sees it (the caller data is itself extracted as a
GraphQL response). -/
def s2Envelope : RData := some (.obj (.cons "data" s2DataJson .nil))

/-- The envelope the resolver actually writes when the non-nullable
leaf fails with no nullable ancestor: errors first, the synthetic
error carries `locations` and no `path`. -/
def unableOut : String :=
  "\x7b\"errors\":[\x7b\"message\":\"unable to resolve\",\"locations\":[\x7b\"line\":0,\"column\":0\x7d]\x7d],\"data\":null\x7d"

/-- The S2 output the claim predicts. -/
def claimedS2Out : String :=
  "\x7b\"data\":null,\"errors\":[\x7b\"message\":\"unable to resolve\",\"path\":[\"n\"]\x7d]\x7d"

/-! ## Claim C4: context validation in the non-streaming resolve -/

/-- C4 (counterexample): a context whose patch cursors are not in their
initial state is exactly what `validateContext` rejects, yet
`ResolveGraphQLResponse` resolves S1 successfully on it — the
non-streaming resolve never validates the context (only
`ResolveGraphQLStreamingResponse` does, resolve.go line 524). -/
theorem claim4_counterexample :
    validateContext { newCtx with currentPatch := 5, maxPatch := 5 } =
      some .contextNotReset ∧
    ResolveGraphQLResponse 20 { newCtx with currentPatch := 5, maxPatch := 5 }
        s1Plan s2Envelope =
      some ("\x7b\"data\":\x7b\"hello\":\"world\"\x7d\x7d", none) := by
  constructor
  · rfl
  · rfl

/-- C4 (amended): `ResolveGraphQLResponse` performs no context
validation: whatever the patch cursors hold, the non-streaming resolve
accepts the context and produces its normal output (context validation
is invoked only by the streaming resolve). -/
theorem claim4_amended (cp mp : Int) :
    ResolveGraphQLResponse 20 { newCtx with currentPatch := cp, maxPatch := mp }
        s1Plan s2Envelope =
      some ("\x7b\"data\":\x7b\"hello\":\"world\"\x7d\x7d", none) := by
  rfl

/-! ## Claim C1: non-null propagation and the synthetic error -/

/-- C1 (counterexample): at scenario S2's input the resolver returns
success with the envelope `unableOut`, which differs from the claimed
envelope: `errors` precedes `data`, and the synthetic error carries
`locations` but no `path` at all — `resolveObject` pops the failing
field's path element before `addResolveError` runs, so the error's
path cannot list the failing field's name. -/
theorem claim1_counterexample :
    ResolveGraphQLResponse 20 newCtx s2Plan s2Data = some (unableOut, none) ∧
    unableOut ≠ claimedS2Out ∧
    ¬ List.IsInfix "\"path\"".data unableOut.data := by
  refine ⟨rfl, by decide, by decide⟩

/-- C1 (amended): when a non-nullable leaf resolves to null with no
nullable ancestor, the call succeeds and writes
`\x7b"errors":[\x7b"message":"unable to resolve","locations":[…]\x7d],"data":null\x7d`:
errors precede data, and the synthetic error has message
`unable to resolve` with a `locations` field but no `path` for a
root-level field (the failing field's name is popped before the error
is added); this holds both for S2's raw input (whose data is discarded
by the envelope extraction, failing at the first field) and for the
envelope-wrapped input (failing at `n`).  For a failing leaf inside a
nested non-nullable object field `o`, the error's path lists the
enclosing object's path `["o"]`, not the failing field.  If a nullable
ancestor exists, that ancestor's output becomes null and the call
succeeds; error bytes already written below the catch are still
emitted, because the catching object merges the failing child's errors
before writing null: a leaf failing directly under the nullable
ancestor has written no error bytes, so the envelope is
`\x7b"data":null\x7d` with no errors at all, while a failure arriving
through an intermediate non-nullable object yields
`\x7b"errors":[…,"path":["o"]],"data":null\x7d`. -/
theorem claim1_amended :
    ResolveGraphQLResponse 20 newCtx s2Plan s2Data = some (unableOut, none) ∧
    ResolveGraphQLResponse 20 newCtx s2Plan s2Envelope = some (unableOut, none) ∧
    ResolveGraphQLResponse 20 newCtx nestedPlan s2Envelope =
      some ("\x7b\"errors\":[\x7b\"message\":\"unable to resolve\",\"locations\":[\x7b\"line\":0,\"column\":0\x7d],\"path\":[\"o\"]\x7d],\"data\":null\x7d", none) ∧
    ResolveGraphQLResponse 20 newCtx s2PlanNullableRoot s2Envelope =
      some ("\x7b\"data\":null\x7d", none) ∧
    ResolveGraphQLResponse 20 newCtx nestedPlanNullableRoot s2Envelope =
      some ("\x7b\"errors\":[\x7b\"message\":\"unable to resolve\",\"locations\":[\x7b\"line\":0,\"column\":0\x7d],\"path\":[\"o\"]\x7d],\"data\":null\x7d", none) := by
  exact ⟨rfl, rfl, rfl, rfl, rfl⟩

/-! ## Claim C10: the caller data is itself an envelope -/

/-- Whether a JSON value is a string (the one shape whose extracted
bytes do not read back as the same document). -/
def Json.isStr : Json → Bool
  | .str _ => true
  | _ => false

/-- Appending the envelope's error bytes after the errors already in a
buffer, comma-separated, nothing when there are none (the observable
effect of the final `MergeBufPairErrors` in
`ResolveGraphQLResponse`). -/
def appendEnvErrors (buf : BufPair) (env : String) : BufPair :=
  if env = "" then buf
  else { buf with errors := buf.errors ++ (if buf.errors = "" then "" else ",") ++ env }

/-- The error bytes extracted from the envelope's `errors` array:
elements carrying a `message` are serialized in order. -/
def envelopeErrorsBytes (errs : JsonList) : String :=
  (writeResponseErrors errs emptyBufPair).errors

theorem serializeJson_obj_ne_empty (fs : JsonObj) : serializeJson (.obj fs) ≠ "" := by
  intro h
  have h2 := congrArg String.data h
  simp [serializeJson, lBrace, rBrace, String.data_append] at h2

/-- C10 (confirmed): the caller-supplied bytes are first processed as a
GraphQL response envelope: the plan tree is walked against exactly the
envelope's `data` value, and the message-carrying elements of the
envelope's `errors` array are appended to the response's errors after
the errors the walk produced.  (`d` ranges over non-string values with
non-empty bytes, the shapes for which extracted bytes read back as the
same document.) -/
theorem claim10_thm (fuel : Nat) (ctx : Ctx) (node : Node) (d : Json) (errs : JsonList)
    (_h1 : d.isStr = false) (h2 : jsonRawBytes (some d) ≠ "") :
    ResolveGraphQLResponse fuel ctx node
        (some (.obj (.cons "data" d (.cons "errors" (.arr errs) .nil)))) =
      (match resolveNode fuel ctx node (some d) emptyBufPair with
       | none => none
       | some r =>
           match r.err with
           | some e =>
               if e = .nonNullableFieldValueIsNull then
                 some (writeGraphqlResponse
                   (appendEnvErrors r.buf (envelopeErrorsBytes errs)) true, none)
               else some ("", some e)
           | none =>
               some (writeGraphqlResponse
                 (appendEnvErrors r.buf (envelopeErrorsBytes errs)) false, none)) := by
  have hre : reparseBytes d = some d := by
    rw [reparseBytes, if_neg]
    intro h
    exact h2 ((string_length_eq_zero _).mp h)
  have hraw : (jsonRawBytes (some (Json.obj (.cons "data" d
      (.cons "errors" (.arr errs) .nil))))).length = 0 → False := by
    intro h
    exact serializeJson_obj_ne_empty _ ((string_length_eq_zero _).mp h)
  have hextract : extractResponse
      (some (.obj (.cons "data" d (.cons "errors" (.arr errs) .nil)))) ⟨true, false⟩ =
      ⟨some d, envelopeErrorsBytes errs⟩ := by
    rw [extractResponse, if_neg hraw]
    have hne : ("errors" : String) ≠ "data" := by decide
    have hne2 : ("data" : String) ≠ "errors" := by decide
    simp [jsonGet, jsonObjLookup, literalData, literalErrors, hre, envelopeErrorsBytes,
      hne, hne2]
  rw [ResolveGraphQLResponse, hextract]
  cases hr : resolveNode fuel ctx node (some d) emptyBufPair with
  | none => rfl
  | some r =>
      have hmerge : ∀ buf : BufPair,
          (if (envelopeErrorsBytes errs).length > 0 then
            (MergeBufPairErrors { data := "", errors := envelopeErrorsBytes errs } buf).2
          else buf) = appendEnvErrors buf (envelopeErrorsBytes errs) := by
        intro buf
        by_cases he : envelopeErrorsBytes errs = ""
        · simp [he, appendEnvErrors, string_length_eq_zero]
        · have hl : (envelopeErrorsBytes errs).length > 0 := by
            rcases Nat.eq_zero_or_pos (envelopeErrorsBytes errs).length with h0 | h0
            · exact absurd ((string_length_eq_zero _).mp h0) he
            · exact h0
          by_cases hb : buf.errors = "" <;>
            simp [appendEnvErrors, MergeBufPairErrors, he, hb, hl,
              string_length_eq_zero, comma]
      cases he : r.err with
      | none => simp [he, hmerge]
      | some e =>
          by_cases hnn : e = GoError.nonNullableFieldValueIsNull <;>
            simp [he, hnn, hmerge]

/-- Witness for C10: a one-field plan against the envelope
`\x7b"data":\x7b"hello":"world"\x7d,"errors":[\x7b"message":"m"\x7d]\x7d`. -/
theorem claim10_witness :
    ResolveGraphQLResponse 20 newCtx s1Plan
        (some (.obj (.cons "data" s2DataJson
          (.cons "errors" (.arr (.cons (.obj (.cons "message" (.str "m") .nil)) .nil)) .nil)))) =
      (match resolveNode 20 newCtx s1Plan (some s2DataJson) emptyBufPair with
       | none => none
       | some r =>
           match r.err with
           | some e =>
               if e = .nonNullableFieldValueIsNull then
                 some (writeGraphqlResponse
                   (appendEnvErrors r.buf (envelopeErrorsBytes
                     (.cons (.obj (.cons "message" (.str "m") .nil)) .nil))) true, none)
               else some ("", some e)
           | none =>
               some (writeGraphqlResponse
                 (appendEnvErrors r.buf (envelopeErrorsBytes
                   (.cons (.obj (.cons "message" (.str "m") .nil)) .nil))) false, none)) :=
  claim10_thm 20 newCtx s1Plan s2DataJson
    (.cons (.obj (.cons "message" (.str "m") .nil)) .nil) rfl (by decide)

/-! ## Claim C8: streaming arrays -/

/-- The patches enqueued for the streamed tail of an array: for the
element with index `i`, the stream's patch index, the current context
path extended with the element index, a nil extra path, and the
element's raw bytes. -/
def streamedPatches (c : Ctx) (pIdx : Int) : Nat → List RData → List RPatch
  | _, [] => []
  | i, d :: rest =>
      ⟨(c.addIntegerPathElement i).path, none, jsonRawBytes d, pIdx⟩ ::
        streamedPatches c pIdx (i + 1) rest

/-- Appending a batch of patches to a context (each enqueue also
advances `maxPatch`). -/
def addPatchesList (c : Ctx) (ps : List RPatch) : Ctx :=
  { c with patches := c.patches ++ ps, maxPatch := c.maxPatch + ps.length }

theorem ctxPath_congr (c₁ c₂ : Ctx) (h1 : c₁.pathElements = c₂.pathElements)
    (h2 : c₁.pathPfx = c₂.pathPfx) : c₁.path = c₂.path := by
  rw [Ctx.path, Ctx.path, h1, h2]

theorem streamedPatches_congr (c₁ c₂ : Ctx) (p : Int)
    (h1 : c₁.pathElements = c₂.pathElements) (h2 : c₁.pathPfx = c₂.pathPfx) :
    ∀ (i : Nat) (ds : List RData), streamedPatches c₁ p i ds = streamedPatches c₂ p i ds := by
  intro i ds
  induction ds generalizing i with
  | nil => rfl
  | cons d rest ih =>
      have hp : (c₁.addIntegerPathElement i).path = (c₂.addIntegerPathElement i).path := by
        apply ctxPath_congr <;>
          simp [Ctx.addIntegerPathElement, Ctx.addPathElement, h1, h2]
      simp [streamedPatches, hp, ih]

theorem addPatchesList_append (c : Ctx) (ps qs : List RPatch) :
    addPatchesList (addPatchesList c ps) qs = addPatchesList c (ps ++ qs) := by
  simp [addPatchesList, List.append_assoc]
  ring

theorem addPatchesList_pathElements (c : Ctx) (ps : List RPatch) :
    (addPatchesList c ps).pathElements = c.pathElements := rfl

theorem addPatchesList_pathPfx (c : Ctx) (ps : List RPatch) :
    (addPatchesList c ps).pathPfx = c.pathPfx := rfl

/-- One streamed enqueue leaves the context's path stack untouched and
appends exactly one patch. -/
theorem streamedStep_ctx (c : Ctx) (i : Nat) (P : Int) (d : RData) :
    ((preparePatch (c.addIntegerPathElement i) P none (jsonRawBytes d)).removeLastPathElement) =
      addPatchesList c [⟨(c.addIntegerPathElement i).path, none, jsonRawBytes d, P⟩] := by
  simp [preparePatch, Ctx.addPatch, Ctx.removeLastPathElement, Ctx.addIntegerPathElement,
    Ctx.addPathElement, addPatchesList, List.dropLast_concat]

/-- The streamed tail: once the element index has reached the initial
batch size, every remaining element is enqueued (never resolved), the
buffers are untouched apart from the closing bracket, and the loop
succeeds. -/
theorem syncLoop_streamTail (rc : ResolveChild) (nullable : Bool) (item : Node)
    (N P : Int) :
    ∀ (ds : List RData) (i : Nat) (ctx : Ctx) (ab ib : BufPair) (hp : Bool) (dw : Nat),
      N ≤ (i : Int) →
      resolveArraySynchronousLoop rc nullable item ⟨true, N, P⟩ ds i ctx ab ib hp dw =
        some ⟨addPatchesList ctx (streamedPatches ctx P i ds),
              { ab with data := ab.data ++ rBrack }, none⟩ := by
  intro ds
  induction ds with
  | nil =>
      intro i ctx ab ib hp dw _
      simp [resolveArraySynchronousLoop, addPatchesList, streamedPatches]
  | cons d rest ih =>
      intro i ctx ab ib hp dw hge
      have hcond : (true = true ∧ (i : Int) > N - 1) := ⟨rfl, by omega⟩
      rw [resolveArraySynchronousLoop, if_pos hcond]
      simp only [streamedStep_ctx]
      rw [ih (i + 1) _ ab ib hp dw (by push_cast; omega)]
      rw [streamedPatches_congr _ ctx P (addPatchesList_pathElements _ _)
        (addPatchesList_pathPfx _ _), addPatchesList_append]
      rfl

/-- Splitting a streaming run: as long as the elements before the
initial-batch boundary resolve without a non-null failure, the
streaming loop behaves exactly like the non-streaming loop restricted
to those elements, and additionally enqueues one patch per remaining
element (which is never resolved). -/
theorem syncLoop_streamSplit (rc : ResolveChild) (nullable : Bool) (item : Node)
    (N P : Int) :
    ∀ (ds : List RData) (i : Nat) (ctx : Ctx) (ab ib : BufPair) (hp : Bool) (dw : Nat),
      (∀ d ∈ ds.take (N.toNat - i), ∀ (ctx' : Ctx) (buf' : BufPair), ∃ r,
        rc ctx' item d buf' = some r ∧ (r.err = none ∨ r.err = some .typeNameSkipped)) →
      resolveArraySynchronousLoop rc nullable item ⟨true, N, P⟩ ds i ctx ab ib hp dw =
        (match resolveArraySynchronousLoop rc nullable item ⟨false, N, P⟩
            (ds.take (N.toNat - i)) i ctx ab ib hp dw with
         | none => none
         | some r =>
             some ⟨addPatchesList r.ctx
                 (streamedPatches r.ctx P (i + min (N.toNat - i) ds.length)
                   (ds.drop (N.toNat - i))),
               r.buf, r.err⟩) := by
  intro ds
  induction ds with
  | nil =>
      intro i ctx ab ib hp dw _
      simp [resolveArraySynchronousLoop, streamedPatches, addPatchesList]
  | cons d rest ih =>
      intro i ctx ab ib hp dw hok
      by_cases hi : N.toNat ≤ i
      · have hz : N.toNat - i = 0 := by omega
        rw [syncLoop_streamTail rc nullable item N P (d :: rest) i ctx ab ib hp dw
          (by omega)]
        rw [hz]
        simp [resolveArraySynchronousLoop]
      · have hlt : i < N.toNat := by omega
        have hk : N.toNat - i = (N.toNat - (i + 1)) + 1 := by omega
        have hcond1 : ¬ (true = true ∧ (i : Int) > N - 1) := by
          intro h
          have := h.2
          omega
        have hcond2 : ¬ (false = true ∧ (i : Int) > N - 1) := by
          intro h
          exact absurd h.1 (by decide)
        rw [hk]
        obtain ⟨r, hr, herr⟩ := hok d (by rw [hk]; exact List.mem_cons_self d _)
          (ctx.addIntegerPathElement i) ib
        have hok' : ∀ d' ∈ rest.take (N.toNat - (i + 1)), ∀ (ctx' : Ctx) (buf' : BufPair),
            ∃ r, rc ctx' item d' buf' = some r ∧
              (r.err = none ∨ r.err = some .typeNameSkipped) := by
          intro d' hd'
          apply hok
          rw [hk]
          exact List.mem_cons_of_mem d (by simpa using hd')
        have harith : (i + 1) + min (N.toNat - (i + 1)) rest.length =
            i + min ((N.toNat - (i + 1)) + 1) (d :: rest).length := by
          simp [List.length_cons]
          omega
        rcases herr with herr | herr
        · rw [resolveArraySynchronousLoop, if_neg hcond1]
          conv_rhs => rw [List.take_succ_cons, resolveArraySynchronousLoop, if_neg hcond2]
          simp only [hr, herr]
          rw [ih (i + 1) _ _ _ _ _ hok', harith]
          rfl
        · rw [resolveArraySynchronousLoop, if_neg hcond1]
          conv_rhs => rw [List.take_succ_cons, resolveArraySynchronousLoop, if_neg hcond2]
          simp only [hr, herr]
          have : ¬ (GoError.typeNameSkipped = GoError.nonNullableFieldValueIsNull ∧
              nullable = true) := by
            intro h
            exact absurd h.1 (by decide)
          simp only [if_neg this, if_pos rfl]
          rw [ih (i + 1) _ _ _ _ _ hok', harith]
          rfl

/-- C8 (counterexample): a streaming array with `initialBatchSize 2`
whose first (inline) element fails non-nullably while the array is
nullable exits the loop at element 0: the run succeeds with `null` and
enqueues nothing, although the claim mandates that the element at
index 2 ≥ N be enqueued as a patch (second conjunct: the mandated
enqueue list is non-empty). -/
theorem claim8_counterexample :
    (resolveArraySynchronous (resolveNode 5) true (.integer ["c"] false) ⟨true, 2, 7⟩
        [some (.obj .nil), some (.obj (.cons "c" (.num "1") .nil)),
         some (.obj (.cons "c" (.num "2") .nil))] newCtx emptyBufPair).map
      (fun r => (r.buf, r.err, r.ctx.patches)) =
      some ({ data := "null", errors := "" }, none, ([] : List RPatch)) ∧
    streamedPatches newCtx 7 2 [some (.obj (.cons "c" (.num "2") .nil))] ≠ [] := by
  constructor
  · rfl
  · simp [streamedPatches]

/-- C8 (amended): for a streaming-enabled array with initial batch size
`N`, provided each element before the batch boundary resolves without
a non-null failure (else the loop exits early, see the
counterexample), the run equals the non-streaming run over the first
`N` elements — so those are resolved and emitted inline as usual —
while each remaining element at index `i ≥ N` is never resolved and is
instead enqueued, in order, as a patch carrying the stream's patch
index, the current path extended with the element index, a nil extra
path, and the element's raw bytes. -/
theorem claim8_amended (fuel : Nat) (nullable : Bool) (item : Node) (N P : Int)
    (items : List RData) (ctx : Ctx) (arrayBuf : BufPair)
    (hok : ∀ d ∈ items.take N.toNat, ∀ (ctx' : Ctx) (buf' : BufPair), ∃ r,
      resolveNode fuel ctx' item d buf' = some r ∧
        (r.err = none ∨ r.err = some .typeNameSkipped)) :
    resolveArraySynchronous (resolveNode fuel) nullable item ⟨true, N, P⟩ items ctx arrayBuf =
      (match resolveArraySynchronous (resolveNode fuel) nullable item ⟨false, N, P⟩
          (items.take N.toNat) ctx arrayBuf with
       | none => none
       | some r =>
           some ⟨addPatchesList r.ctx
               (streamedPatches r.ctx P (min N.toNat items.length) (items.drop N.toNat)),
             r.buf, r.err⟩) := by
  rw [resolveArraySynchronous, resolveArraySynchronous]
  have h := syncLoop_streamSplit (resolveNode fuel) nullable item N P items 0 ctx
    { arrayBuf with data := arrayBuf.data ++ lBrack } emptyBufPair false 0
    (by simpa using hok)
  simpa using h

/-- Witness for C8: a three-element streaming array of deferless null
leaves with batch size 1 — element 0 resolves inline, elements 1 and 2
are enqueued. -/
theorem claim8_witness :
    resolveArraySynchronous (resolveNode 1) false (.nullValue ⟨false, 0⟩) ⟨true, 1, 7⟩
        [some .null, some (.num "1"), some (.str "x")] newCtx emptyBufPair =
      (match resolveArraySynchronous (resolveNode 1) false (.nullValue ⟨false, 0⟩)
          ⟨false, 1, 7⟩ ([some .null, some (.num "1"), some (.str "x")].take (1 : Int).toNat)
          newCtx emptyBufPair with
       | none => none
       | some r =>
           some ⟨addPatchesList r.ctx
               (streamedPatches r.ctx 7 (min (1 : Int).toNat
                 [some Json.null, some (.num "1"), some (.str "x")].length)
                 ([some .null, some (.num "1"), some (.str "x")].drop (1 : Int).toNat)),
             r.buf, r.err⟩) :=
  claim8_amended 1 false (.nullValue ⟨false, 0⟩) 1 7
    [some .null, some (.num "1"), some (.str "x")] newCtx emptyBufPair
    (by intro d hd ctx' buf'
        exact ⟨_, rfl, Or.inl rfl⟩)

/-! ## Context-independence of data and error status

The resolver's control flow never reads the context: the context only
feeds the text of resolve errors (path elements, position) and the
patch queue.  The relation `RelA` captures what is context-independent
about a run: presence of a result, the returned error, the data bytes,
and whether the errors buffer is empty. -/

theorem WriteErr_data (b : BufPair) (m : String) (l p x : Option String) :
    (WriteErr b m l p x).data = b.data := rfl

theorem WriteErr_errors_ne (b : BufPair) (m : String) (l p x : Option String) :
    (WriteErr b m l p x).errors ≠ "" := by
  intro h
  have hl := congrArg String.length h
  simp only [WriteErr, String.length_append] at hl
  have h0 : ("" : String).length = 0 := rfl
  have hk : rBrace.length = 1 := rfl
  omega

theorem addResolveError_data (c : Ctx) (b : BufPair) :
    (addResolveError c b).data = b.data := rfl

theorem addResolveError_errors_ne (c : Ctx) (b : BufPair) :
    (addResolveError c b).errors ≠ "" := by
  simp only [addResolveError]
  exact WriteErr_errors_ne _ _ _ _ _

theorem string_length_ne_iff (s : String) : (s.length ≠ 0) ↔ s ≠ "" := by
  constructor
  · intro h he
    exact h (by rw [he]; rfl)
  · intro h hl
    exact h ((string_length_eq_zero s).mp hl)

theorem mergeData_fst (f t : BufPair) (flag : Bool) :
    (MergeBufPairData f t flag).1.data = "" ∧
      (MergeBufPairData f t flag).1.errors = f.errors := by
  rw [MergeBufPairData]
  by_cases h : f.data.length = 0
  · rw [if_pos h]
    exact ⟨(string_length_eq_zero _).mp h, rfl⟩
  · rw [if_neg h]
    exact ⟨rfl, rfl⟩

theorem mergeData_snd (f t : BufPair) (flag : Bool) :
    (MergeBufPairData f t flag).2.data =
      (if f.data = "" then t.data
       else t.data ++ (if flag then comma else "") ++ f.data) ∧
      (MergeBufPairData f t flag).2.errors = t.errors := by
  rw [MergeBufPairData]
  by_cases h : f.data.length = 0
  · rw [if_pos h, if_pos ((string_length_eq_zero _).mp h)]
    exact ⟨rfl, rfl⟩
  · rw [if_neg h, if_neg ((string_length_ne_iff _).mp h)]
    exact ⟨rfl, rfl⟩

theorem mergeErrors_fst (f t : BufPair) :
    (MergeBufPairErrors f t).1.errors = "" ∧
      (MergeBufPairErrors f t).1.data = f.data := by
  rw [MergeBufPairErrors]
  by_cases h : f.errors.length = 0
  · rw [if_pos h]
    exact ⟨(string_length_eq_zero _).mp h, rfl⟩
  · rw [if_neg h]
    exact ⟨rfl, rfl⟩

theorem mergeErrors_snd (f t : BufPair) :
    (MergeBufPairErrors f t).2.data = t.data ∧
      (MergeBufPairErrors f t).2.errors =
        (if f.errors = "" then t.errors
         else t.errors ++ (if t.errors = "" then "" else comma) ++ f.errors) := by
  rw [MergeBufPairErrors]
  by_cases h : f.errors.length = 0
  · rw [if_pos h, if_pos ((string_length_eq_zero _).mp h)]
    exact ⟨rfl, rfl⟩
  · rw [if_neg h, if_neg ((string_length_ne_iff _).mp h)]
    refine ⟨rfl, ?_⟩
    by_cases ht : t.errors = ""
    · rw [if_neg (by rw [ht]; intro hc; exact hc rfl), if_pos ht]
    · rw [if_pos ((string_length_ne_iff _).mpr ht), if_neg ht]

theorem string_append_eq_empty (a b : String) : a ++ b = "" ↔ a = "" ∧ b = "" := by
  constructor
  · intro h
    have hl := congrArg String.length h
    simp only [String.length_append] at hl
    have h0 : ("" : String).length = 0 := rfl
    have ha : a.length = 0 := by omega
    have hb : b.length = 0 := by omega
    exact ⟨(string_length_eq_zero a).mp ha, (string_length_eq_zero b).mp hb⟩
  · rintro ⟨rfl, rfl⟩
    rfl

theorem mergeErrors_snd_empty_iff (f t : BufPair) :
    ((MergeBufPairErrors f t).2.errors = "") ↔ (t.errors = "" ∧ f.errors = "") := by
  rw [(mergeErrors_snd f t).2]
  by_cases hf : f.errors = ""
  · simp [hf]
  · by_cases ht : t.errors = "" <;> simp [hf, ht, string_append_eq_empty]

/-- The source buffer after a full merge is always reset to empty. -/
theorem mergeBufPairs_fst (f t : BufPair) (flag : Bool) :
    (MergeBufPairs f t flag).1 = emptyBufPair := by
  rcases h1 : MergeBufPairData f t flag with ⟨f1, t1⟩
  have hd := mergeData_fst f t flag
  rw [h1] at hd
  rw [MergeBufPairs, h1]
  have he := mergeErrors_fst f1 t1
  rcases h2 : MergeBufPairErrors f1 t1 with ⟨f2, t2⟩
  rw [h2] at he
  simp only at hd he ⊢
  rw [h2]
  cases f2 with
  | mk d e =>
      have h1' : e = "" := he.1
      have h2' : d = f1.data := he.2
      simp [emptyBufPair, h1', h2', hd.1]

/-- Data and errors of the merge target after a full merge. -/
theorem mergeBufPairs_snd (f t : BufPair) (flag : Bool) :
    (MergeBufPairs f t flag).2.data =
      (if f.data = "" then t.data
       else t.data ++ (if flag then comma else "") ++ f.data) ∧
      ((MergeBufPairs f t flag).2.errors = "" ↔ (t.errors = "" ∧ f.errors = "")) := by
  rcases h1 : MergeBufPairData f t flag with ⟨f1, t1⟩
  have hdf := mergeData_fst f t flag
  have hds := mergeData_snd f t flag
  rw [h1] at hdf hds
  rw [MergeBufPairs, h1]
  have hes := mergeErrors_snd f1 t1
  have hei := mergeErrors_snd_empty_iff f1 t1
  simp only at hdf hds
  constructor
  · rw [hes.1, hds.1]
  · rw [hei, hds.2, hdf.2]

/-- Input-buffer relation for comparing two runs: equal data bytes and
equally-empty error buffers. -/
def BufRel (b₁ b₂ : BufPair) : Prop :=
  b₁.data = b₂.data ∧ (b₁.errors = "" ↔ b₂.errors = "")

/-- Result relation: two runs either both exhaust fuel or both return,
with the same Go error, the same data bytes, and equally-empty error
buffers (error text may differ: it embeds the context's path and
position). -/
def RelA : Option RunRes → Option RunRes → Prop
  | none, none => True
  | some r₁, some r₂ =>
      r₁.err = r₂.err ∧ r₁.buf.data = r₂.buf.data ∧
        (r₁.buf.errors = "" ↔ r₂.buf.errors = "")
  | _, _ => False

/-- A child resolver whose observable data behaviour is
context-independent. -/
def ChildRelA (rc : ResolveChild) : Prop :=
  ∀ (n : Node) (d : RData) (ctx₁ ctx₂ : Ctx) (b₁ b₂ : BufPair), BufRel b₁ b₂ →
    RelA (rc ctx₁ n d b₁) (rc ctx₂ n d b₂)

/-- A leaf resolver writes a fixed data suffix, leaves the errors
untouched and returns a fixed error, independent of the buffer. -/
def UniformLeaf (f : BufPair → BufPair × Option GoError) : Prop :=
  ∃ δ e, ∀ b : BufPair, f b = ({ b with data := b.data ++ δ }, e)

theorem string_append_empty (s : String) : s ++ "" = s := by
  cases s with
  | mk l => simp [String.ext_iff, String.data_append]

theorem uniform_id (f : BufPair → BufPair × Option GoError) (e : Option GoError)
    (h : ∀ b, f b = (b, e)) : UniformLeaf f := by
  refine ⟨"", e, fun b => ?_⟩
  rw [h b]
  cases b with
  | mk d er => simp [string_append_empty]

theorem resolveInteger_uniform (p : List String) (nl : Bool) (d : RData) :
    UniformLeaf (resolveInteger p nl d) := by
  rcases h : jsonGet d p with _ | v
  · cases nl
    · exact uniform_id _ (some .nonNullableFieldValueIsNull) (fun b => by simp [resolveInteger, h])
    · exact ⟨nullLiteral, none, fun b => by simp [resolveInteger, h, resolveNull]⟩
  · cases v with
    | num s => exact ⟨s, none, fun b => by simp [resolveInteger, h]⟩
    | null =>
        cases nl
        · exact uniform_id _ (some .nonNullableFieldValueIsNull) (fun b => by simp [resolveInteger, h])
        · exact ⟨nullLiteral, none, fun b => by simp [resolveInteger, h, resolveNull]⟩
    | boolean bl =>
        cases nl
        · exact uniform_id _ (some .nonNullableFieldValueIsNull) (fun b => by simp [resolveInteger, h])
        · exact ⟨nullLiteral, none, fun b => by simp [resolveInteger, h, resolveNull]⟩
    | str s =>
        cases nl
        · exact uniform_id _ (some .nonNullableFieldValueIsNull) (fun b => by simp [resolveInteger, h])
        · exact ⟨nullLiteral, none, fun b => by simp [resolveInteger, h, resolveNull]⟩
    | arr es =>
        cases nl
        · exact uniform_id _ (some .nonNullableFieldValueIsNull) (fun b => by simp [resolveInteger, h])
        · exact ⟨nullLiteral, none, fun b => by simp [resolveInteger, h, resolveNull]⟩
    | obj fs =>
        cases nl
        · exact uniform_id _ (some .nonNullableFieldValueIsNull) (fun b => by simp [resolveInteger, h])
        · exact ⟨nullLiteral, none, fun b => by simp [resolveInteger, h, resolveNull]⟩

theorem resolveFloat_uniform (p : List String) (nl : Bool) (d : RData) :
    UniformLeaf (resolveFloat p nl d) := by
  rcases h : jsonGet d p with _ | v
  · cases nl
    · exact uniform_id _ (some .nonNullableFieldValueIsNull) (fun b => by simp [resolveFloat, h])
    · exact ⟨nullLiteral, none, fun b => by simp [resolveFloat, h, resolveNull]⟩
  · cases v with
    | num s => exact ⟨s, none, fun b => by simp [resolveFloat, h]⟩
    | null =>
        cases nl
        · exact uniform_id _ (some .nonNullableFieldValueIsNull) (fun b => by simp [resolveFloat, h])
        · exact ⟨nullLiteral, none, fun b => by simp [resolveFloat, h, resolveNull]⟩
    | boolean bl =>
        cases nl
        · exact uniform_id _ (some .nonNullableFieldValueIsNull) (fun b => by simp [resolveFloat, h])
        · exact ⟨nullLiteral, none, fun b => by simp [resolveFloat, h, resolveNull]⟩
    | str s =>
        cases nl
        · exact uniform_id _ (some .nonNullableFieldValueIsNull) (fun b => by simp [resolveFloat, h])
        · exact ⟨nullLiteral, none, fun b => by simp [resolveFloat, h, resolveNull]⟩
    | arr es =>
        cases nl
        · exact uniform_id _ (some .nonNullableFieldValueIsNull) (fun b => by simp [resolveFloat, h])
        · exact ⟨nullLiteral, none, fun b => by simp [resolveFloat, h, resolveNull]⟩
    | obj fs =>
        cases nl
        · exact uniform_id _ (some .nonNullableFieldValueIsNull) (fun b => by simp [resolveFloat, h])
        · exact ⟨nullLiteral, none, fun b => by simp [resolveFloat, h, resolveNull]⟩

theorem resolveBoolean_uniform (p : List String) (nl : Bool) (d : RData) :
    UniformLeaf (resolveBoolean p nl d) := by
  rcases h : jsonGet d p with _ | v
  · cases nl
    · exact uniform_id _ (some .nonNullableFieldValueIsNull) (fun b => by simp [resolveBoolean, h])
    · exact ⟨nullLiteral, none, fun b => by simp [resolveBoolean, h, resolveNull]⟩
  · cases v with
    | boolean bl =>
        exact ⟨(if bl then "true" else "false"), none, fun b => by simp [resolveBoolean, h]⟩
    | null =>
        cases nl
        · exact uniform_id _ (some .nonNullableFieldValueIsNull) (fun b => by simp [resolveBoolean, h])
        · exact ⟨nullLiteral, none, fun b => by simp [resolveBoolean, h, resolveNull]⟩
    | num s =>
        cases nl
        · exact uniform_id _ (some .nonNullableFieldValueIsNull) (fun b => by simp [resolveBoolean, h])
        · exact ⟨nullLiteral, none, fun b => by simp [resolveBoolean, h, resolveNull]⟩
    | str s =>
        cases nl
        · exact uniform_id _ (some .nonNullableFieldValueIsNull) (fun b => by simp [resolveBoolean, h])
        · exact ⟨nullLiteral, none, fun b => by simp [resolveBoolean, h, resolveNull]⟩
    | arr es =>
        cases nl
        · exact uniform_id _ (some .nonNullableFieldValueIsNull) (fun b => by simp [resolveBoolean, h])
        · exact ⟨nullLiteral, none, fun b => by simp [resolveBoolean, h, resolveNull]⟩
    | obj fs =>
        cases nl
        · exact uniform_id _ (some .nonNullableFieldValueIsNull) (fun b => by simp [resolveBoolean, h])
        · exact ⟨nullLiteral, none, fun b => by simp [resolveBoolean, h, resolveNull]⟩

theorem resolveString_uniform (p : Option (List String)) (nl : Bool) (d : RData) :
    UniformLeaf (resolveString p nl d) := by
  by_cases c1 : (jsonRawBytes d).length ≠ 0 ∧ p = none
  · obtain ⟨hlen, hp⟩ := c1
    subst hp
    rcases d with _ | v
    · exact absurd rfl hlen
    · cases v with
      | str s =>
          exact ⟨quote ++ jsonRawBytes (some (.str s)) ++ quote, none, fun b => by
            simp [resolveString, hlen, String.append_assoc]⟩
      | null =>
          by_cases c2 : firstCharIsLetter (jsonRawBytes (some .null)) = true
          · exact ⟨quote ++ jsonRawBytes (some .null) ++ quote, none, fun b => by
              simp [resolveString, hlen, c2, String.append_assoc]⟩
          · cases nl
            · exact uniform_id _ (some .nonNullableFieldValueIsNull) (fun b => by
                simp [resolveString, hlen, c2])
            · exact ⟨nullLiteral, none, fun b => by
                simp [resolveString, hlen, c2, resolveNull]⟩
      | boolean bl =>
          by_cases c2 : firstCharIsLetter (jsonRawBytes (some (.boolean bl))) = true
          · exact ⟨quote ++ jsonRawBytes (some (.boolean bl)) ++ quote, none, fun b => by
              simp [resolveString, hlen, c2, String.append_assoc]⟩
          · cases nl
            · exact uniform_id _ (some .nonNullableFieldValueIsNull) (fun b => by
                simp [resolveString, hlen, c2])
            · exact ⟨nullLiteral, none, fun b => by
                simp [resolveString, hlen, c2, resolveNull]⟩
      | num sn =>
          by_cases c2 : firstCharIsLetter (jsonRawBytes (some (.num sn))) = true
          · exact ⟨quote ++ jsonRawBytes (some (.num sn)) ++ quote, none, fun b => by
              simp [resolveString, hlen, c2, String.append_assoc]⟩
          · cases nl
            · exact uniform_id _ (some .nonNullableFieldValueIsNull) (fun b => by
                simp [resolveString, hlen, c2])
            · exact ⟨nullLiteral, none, fun b => by
                simp [resolveString, hlen, c2, resolveNull]⟩
      | arr es =>
          by_cases c2 : firstCharIsLetter (jsonRawBytes (some (.arr es))) = true
          · exact ⟨quote ++ jsonRawBytes (some (.arr es)) ++ quote, none, fun b => by
              simp [resolveString, hlen, c2, String.append_assoc]⟩
          · cases nl
            · exact uniform_id _ (some .nonNullableFieldValueIsNull) (fun b => by
                simp [resolveString, hlen, c2])
            · exact ⟨nullLiteral, none, fun b => by
                simp [resolveString, hlen, c2, resolveNull]⟩
      | obj fs =>
          by_cases c2 : firstCharIsLetter (jsonRawBytes (some (.obj fs))) = true
          · exact ⟨quote ++ jsonRawBytes (some (.obj fs)) ++ quote, none, fun b => by
              simp [resolveString, hlen, c2, String.append_assoc]⟩
          · cases nl
            · exact uniform_id _ (some .nonNullableFieldValueIsNull) (fun b => by
                simp [resolveString, hlen, c2])
            · exact ⟨nullLiteral, none, fun b => by
                simp [resolveString, hlen, c2, resolveNull]⟩
  · rcases hj : jsonGet d (p.getD []) with _ | v
    · cases nl
      · exact uniform_id _ (some .nonNullableFieldValueIsNull) (fun b => by
          simp [resolveString, c1, hj])
      · exact ⟨nullLiteral, none, fun b => by simp [resolveString, c1, hj, resolveNull]⟩
    · cases v with
      | str s =>
          exact ⟨quote ++ s ++ quote, none, fun b => by
            simp [resolveString, c1, hj, String.append_assoc]⟩
      | null =>
          cases nl
          · exact uniform_id _ (some .nonNullableFieldValueIsNull) (fun b => by
              simp [resolveString, c1, hj])
          · exact ⟨nullLiteral, none, fun b => by simp [resolveString, c1, hj, resolveNull]⟩
      | boolean bl =>
          cases nl
          · exact uniform_id _ (some .nonNullableFieldValueIsNull) (fun b => by
              simp [resolveString, c1, hj])
          · exact ⟨nullLiteral, none, fun b => by simp [resolveString, c1, hj, resolveNull]⟩
      | num s =>
          cases nl
          · exact uniform_id _ (some .nonNullableFieldValueIsNull) (fun b => by
              simp [resolveString, c1, hj])
          · exact ⟨nullLiteral, none, fun b => by simp [resolveString, c1, hj, resolveNull]⟩
      | arr es =>
          cases nl
          · exact uniform_id _ (some .nonNullableFieldValueIsNull) (fun b => by
              simp [resolveString, c1, hj])
          · exact ⟨nullLiteral, none, fun b => by simp [resolveString, c1, hj, resolveNull]⟩
      | obj fs =>
          cases nl
          · exact uniform_id _ (some .nonNullableFieldValueIsNull) (fun b => by
              simp [resolveString, c1, hj])
          · exact ⟨nullLiteral, none, fun b => by simp [resolveString, c1, hj, resolveNull]⟩

theorem relA_of_uniform (f : BufPair → BufPair × Option GoError) (h : UniformLeaf f)
    (ctx₁ ctx₂ : Ctx) (b₁ b₂ : BufPair) (hb : BufRel b₁ b₂) :
    RelA (some ⟨ctx₁, (f b₁).1, (f b₁).2⟩) (some ⟨ctx₂, (f b₂).1, (f b₂).2⟩) := by
  obtain ⟨δ, e, hf⟩ := h
  simp [RelA, hf b₁, hf b₂, hb.1, hb.2]

theorem bufRel_of_relA {r₁ r₂ : RunRes} (h : RelA (some r₁) (some r₂)) :
    BufRel r₁.buf r₂.buf :=
  ⟨h.2.1, h.2.2⟩

theorem resolveObjectFields_relA (rc : ResolveChild) (hrc : ChildRelA rc) (nullable : Bool) :
    ∀ (fields : List ObjField) (ctx₁ ctx₂ : Ctx) (data : RData)
      (ob₁ ob₂ fb₁ fb₂ : BufPair) (skip first : Bool),
      BufRel ob₁ ob₂ → BufRel fb₁ fb₂ →
      RelA (resolveObjectFields rc nullable fields ctx₁ data ob₁ fb₁ skip first)
           (resolveObjectFields rc nullable fields ctx₂ data ob₂ fb₂ skip first) := by
  intro fields
  induction fields with
  | nil =>
      intro ctx₁ ctx₂ data ob₁ ob₂ fb₁ fb₂ skip first hob hfb
      rw [resolveObjectFields, resolveObjectFields]
      cases first
      · simp [RelA, hob.1, hob.2]
      · cases skip
        · cases nullable
          · simp [RelA, addResolveError_data, hob.1,
              addResolveError_errors_ne ctx₁ ob₁, addResolveError_errors_ne ctx₂ ob₂]
          · simp [RelA, resolveNull, hob.1, hob.2]
        · simp [RelA, hob.1, hob.2]
  | cons f rest ih =>
      intro ctx₁ ctx₂ data ob₁ ob₂ fb₁ fb₂ skip first hob hfb
      rw [resolveObjectFields, resolveObjectFields]
      rcases hsk : (match f.onTypeName with
        | some tn => (jsonRawBytes (jsonGet data [typenameLiteral]) ≠ tn : Bool)
        | none => false) with _ | _
      · simp only [hsk, if_neg (by simp : ¬ (false = true))]
        set ob₁' := { ob₁ with data :=
          ob₁.data ++ (if first then lBrace else comma) ++ quote ++ f.name ++ quote ++ colon }
          with hob1
        set ob₂' := { ob₂ with data :=
          ob₂.data ++ (if first then lBrace else comma) ++ quote ++ f.name ++ quote ++ colon }
          with hob2
        have hob' : BufRel ob₁' ob₂' := ⟨by simp [hob1, hob2, hob.1], by simp [hob1, hob2, hob.2]⟩
        have hchild := hrc f.value data ((ctx₁.addPathElement f.name).setPosition f.position)
          ((ctx₂.addPathElement f.name).setPosition f.position) fb₁ fb₂ hfb
        rcases hr1 : rc ((ctx₁.addPathElement f.name).setPosition f.position) f.value data fb₁
          with _ | r₁ <;>
          rcases hr2 : rc ((ctx₂.addPathElement f.name).setPosition f.position) f.value data fb₂
            with _ | r₂ <;>
          rw [hr1, hr2] at hchild
        · simp [RelA]
        · exact absurd hchild (by simp [RelA])
        · exact absurd hchild (by simp [RelA])
        · obtain ⟨herr, hdata, herrs⟩ := hchild
          rcases he1 : r₁.err with _ | e
          · rw [he1] at herr
            simp only [he1, ← herr]
            have hm1 := mergeBufPairs_snd r₁.buf ob₁' false
            have hm2 := mergeBufPairs_snd r₂.buf ob₂' false
            have hf1 := mergeBufPairs_fst r₁.buf ob₁' false
            have hf2 := mergeBufPairs_fst r₂.buf ob₂' false
            rcases hp1 : MergeBufPairs r₁.buf ob₁' false with ⟨a₁, nb₁⟩
            rcases hp2 : MergeBufPairs r₂.buf ob₂' false with ⟨a₂, nb₂⟩
            rw [hp1] at hm1 hf1
            rw [hp2] at hm2 hf2
            simp only at hm1 hm2 hf1 hf2
            apply ih
            · constructor
              · rw [hm1.1, hm2.1, hdata, hob.1]
              · rw [hm1.2, hm2.2]
                constructor
                · rintro ⟨ha, hb2⟩
                  exact ⟨hob'.2.mp ha, herrs.mp hb2⟩
                · rintro ⟨ha, hb2⟩
                  exact ⟨hob'.2.mpr ha, herrs.mpr hb2⟩
            · rw [hf1, hf2]
              exact ⟨rfl, Iff.rfl⟩
          · rw [he1] at herr
            simp only [he1, ← herr]
            by_cases hts : e = GoError.typeNameSkipped
            · subst hts
              simp [RelA, resolveEmptyObject, hob.2]
            · by_cases hnn : e = GoError.nonNullableFieldValueIsNull
              · subst hnn
                simp only [if_neg hts, if_pos rfl]
                have hm1 := mergeErrors_snd r₁.buf { ob₁' with data := "" }
                have hm2 := mergeErrors_snd r₂.buf { ob₂' with data := "" }
                have hi1 := mergeErrors_snd_empty_iff r₁.buf { ob₁' with data := "" }
                have hi2 := mergeErrors_snd_empty_iff r₂.buf { ob₂' with data := "" }
                rcases hp1 : MergeBufPairErrors r₁.buf { ob₁' with data := "" } with ⟨a₁, nb₁⟩
                rcases hp2 : MergeBufPairErrors r₂.buf { ob₂' with data := "" } with ⟨a₂, nb₂⟩
                rw [hp1] at hm1 hi1
                rw [hp2] at hm2 hi2
                simp only at hm1 hm2 hi1 hi2
                have hnb : BufRel nb₁ nb₂ := by
                  constructor
                  · rw [hm1.1, hm2.1]
                  · rw [hi1, hi2]
                    constructor
                    · rintro ⟨ha, hb2⟩
                      exact ⟨hob'.2.mp ha, herrs.mp hb2⟩
                    · rintro ⟨ha, hb2⟩
                      exact ⟨hob'.2.mpr ha, herrs.mpr hb2⟩
                cases nullable
                · cases hio : f.value.isObjectNode
                  · simp [RelA, hio, addResolveError_data, hnb.1,
                      addResolveError_errors_ne _ nb₁, addResolveError_errors_ne _ nb₂]
                  · simp [RelA, hio, hnb.1, hnb.2]
                · simp [RelA, resolveNull, hnb.1, hnb.2]
              · simp [RelA, if_neg hts, if_neg hnn, hob.1, hob.2]
      · simp only [hsk, if_pos rfl]
        exact ih ctx₁ ctx₂ data ob₁ ob₂ fb₁ fb₂ true first hob hfb

theorem resolveArraySynchronousLoop_relA (rc : ResolveChild) (hrc : ChildRelA rc)
    (nullable : Bool) (item : Node) (stream : StreamCfg) :
    ∀ (items : List RData) (i : Nat) (ctx₁ ctx₂ : Ctx) (ab₁ ab₂ ib₁ ib₂ : BufPair)
      (hp : Bool) (dw : Nat),
      BufRel ab₁ ab₂ → BufRel ib₁ ib₂ →
      RelA (resolveArraySynchronousLoop rc nullable item stream items i ctx₁ ab₁ ib₁ hp dw)
           (resolveArraySynchronousLoop rc nullable item stream items i ctx₂ ab₂ ib₂ hp dw) := by
  intro items
  induction items with
  | nil =>
      intro i ctx₁ ctx₂ ab₁ ab₂ ib₁ ib₂ hp dw hab hib
      rw [resolveArraySynchronousLoop, resolveArraySynchronousLoop]
      simp [RelA, hab.1, hab.2]
  | cons d rest ih =>
      intro i ctx₁ ctx₂ ab₁ ab₂ ib₁ ib₂ hp dw hab hib
      rw [resolveArraySynchronousLoop, resolveArraySynchronousLoop]
      by_cases hst : stream.enabled = true ∧ (i : Int) > stream.initialBatchSize - 1
      · simp only [if_pos hst]
        exact ih (i + 1) _ _ _ _ _ _ hp dw hab hib
      · simp only [if_neg hst]
        have hchild := hrc item d (ctx₁.addIntegerPathElement i) (ctx₂.addIntegerPathElement i)
          ib₁ ib₂ hib
        rcases hr1 : rc (ctx₁.addIntegerPathElement i) item d ib₁ with _ | r₁ <;>
          rcases hr2 : rc (ctx₂.addIntegerPathElement i) item d ib₂ with _ | r₂ <;>
            rw [hr1, hr2] at hchild
        · simp [RelA]
        · exact absurd hchild (by simp [RelA])
        · exact absurd hchild (by simp [RelA])
        · obtain ⟨herr, hdata, herrs⟩ := hchild
          rcases he1 : r₁.err with _ | e
          · rw [he1] at herr
            simp only [he1, ← herr]
            have hlen : r₁.buf.data.length = r₂.buf.data.length := by rw [hdata]
            have hm1 := mergeBufPairs_snd r₁.buf ab₁ hp
            have hm2 := mergeBufPairs_snd r₂.buf ab₂ hp
            have hf1 := mergeBufPairs_fst r₁.buf ab₁ hp
            have hf2 := mergeBufPairs_fst r₂.buf ab₂ hp
            rcases hp1 : MergeBufPairs r₁.buf ab₁ hp with ⟨a₁, nb₁⟩
            rcases hp2 : MergeBufPairs r₂.buf ab₂ hp with ⟨a₂, nb₂⟩
            rw [hp1] at hm1 hf1
            rw [hp2] at hm2 hf2
            simp only at hm1 hm2 hf1 hf2
            rw [hlen]
            apply ih
            · constructor
              · rw [hm1.1, hm2.1, hdata, hab.1]
              · rw [hm1.2, hm2.2]
                constructor
                · rintro ⟨ha, hb2⟩
                  exact ⟨hab.2.mp ha, herrs.mp hb2⟩
                · rintro ⟨ha, hb2⟩
                  exact ⟨hab.2.mpr ha, herrs.mpr hb2⟩
            · rw [hf1, hf2]
              exact ⟨rfl, Iff.rfl⟩
          · rw [he1] at herr
            simp only [he1, ← herr]
            by_cases hnn : e = GoError.nonNullableFieldValueIsNull ∧ nullable = true
            · rw [if_pos hnn, if_pos hnn]
              simp [RelA, resolveNull, hab.2]
            · rw [if_neg hnn, if_neg hnn]
              by_cases hts : e = GoError.typeNameSkipped
              · rw [if_pos hts, if_pos hts]
                exact ih (i + 1) _ _ _ _ _ _ hp dw hab ⟨hdata, herrs⟩
              · rw [if_neg hts, if_neg hts]
                simp [RelA, hab.1, hab.2]

/-- Pointwise relation on the per-element results of the asynchronous
loop. -/
def ListRelA : List (BufPair × Option GoError) → List (BufPair × Option GoError) → Prop
  | [], [] => True
  | (b₁, e₁) :: t₁, (b₂, e₂) :: t₂ =>
      b₁.data = b₂.data ∧ (b₁.errors = "" ↔ b₂.errors = "") ∧ e₁ = e₂ ∧ ListRelA t₁ t₂
  | _, _ => False

theorem resolveArrayItemsAsync_relA (rc : ResolveChild) (hrc : ChildRelA rc) (item : Node) :
    ∀ (items : List RData) (i : Nat) (ctx₁ ctx₂ : Ctx),
      (match resolveArrayItemsAsync rc item items i ctx₁,
          resolveArrayItemsAsync rc item items i ctx₂ with
       | none, none => True
       | some l₁, some l₂ => ListRelA l₁ l₂
       | _, _ => False) := by
  intro items
  induction items with
  | nil =>
      intro i ctx₁ ctx₂
      rw [resolveArrayItemsAsync, resolveArrayItemsAsync]
      simp [ListRelA]
  | cons d rest ih =>
      intro i ctx₁ ctx₂
      rw [resolveArrayItemsAsync, resolveArrayItemsAsync]
      have hchild := hrc item d ((ctx₁.clone).addPathElement (toString i))
        ((ctx₂.clone).addPathElement (toString i)) emptyBufPair emptyBufPair ⟨rfl, Iff.rfl⟩
      rcases hr1 : rc ((ctx₁.clone).addPathElement (toString i)) item d emptyBufPair
        with _ | r₁ <;>
        rcases hr2 : rc ((ctx₂.clone).addPathElement (toString i)) item d emptyBufPair
          with _ | r₂ <;>
          rw [hr1, hr2] at hchild
      · simp
      · exact absurd hchild (by simp [RelA])
      · exact absurd hchild (by simp [RelA])
      · obtain ⟨herr, hdata, herrs⟩ := hchild
        have htail := ih (i + 1) ctx₁ ctx₂
        rcases ht1 : resolveArrayItemsAsync rc item rest (i + 1) ctx₁ with _ | l₁ <;>
          rcases ht2 : resolveArrayItemsAsync rc item rest (i + 1) ctx₂ with _ | l₂ <;>
            rw [ht1, ht2] at htail
        · simp
        · exact absurd htail (by simp)
        · exact absurd htail (by simp)
        · simp only []
          exact ⟨hdata, herrs, herr, htail⟩

theorem firstAsyncError_congr :
    ∀ (l₁ l₂ : List (BufPair × Option GoError)), ListRelA l₁ l₂ →
      firstAsyncError l₁ = firstAsyncError l₂ := by
  intro l₁
  induction l₁ with
  | nil =>
      intro l₂ h
      cases l₂ with
      | nil => rfl
      | cons x t => exact absurd h (by simp [ListRelA])
  | cons x t ih =>
      intro l₂ h
      cases l₂ with
      | nil =>
          rcases x with ⟨b, e⟩
          exact absurd h (by simp [ListRelA])
      | cons y t₂ =>
          rcases x with ⟨b₁, e₁⟩
          rcases y with ⟨b₂, e₂⟩
          obtain ⟨-, -, he, ht⟩ := h
          subst he
          cases e₁ with
          | none => simp [firstAsyncError, ih t₂ ht]
          | some e =>
              by_cases hts : e = GoError.typeNameSkipped
              · simp [firstAsyncError, hts, ih t₂ ht]
              · simp [firstAsyncError, hts]

theorem mergeAsyncResults_relA :
    ∀ (l₁ l₂ : List (BufPair × Option GoError)) (ab₁ ab₂ : BufPair) (hp : Bool) (dw : Nat),
      ListRelA l₁ l₂ → BufRel ab₁ ab₂ →
      BufRel (mergeAsyncResults l₁ ab₁ hp dw) (mergeAsyncResults l₂ ab₂ hp dw) := by
  intro l₁
  induction l₁ with
  | nil =>
      intro l₂ ab₁ ab₂ hp dw h hab
      cases l₂ with
      | nil => exact hab
      | cons x t => exact absurd h (by simp [ListRelA])
  | cons x t ih =>
      intro l₂ ab₁ ab₂ hp dw h hab
      cases l₂ with
      | nil =>
          rcases x with ⟨b, e⟩
          exact absurd h (by simp [ListRelA])
      | cons y t₂ =>
          rcases x with ⟨b₁, e₁⟩
          rcases y with ⟨b₂, e₂⟩
          obtain ⟨hdata, herrs, -, ht⟩ := h
          rw [mergeAsyncResults, mergeAsyncResults]
          have hlen : b₁.data.length = b₂.data.length := by rw [hdata]
          have hm1 := mergeBufPairs_snd b₁ ab₁ hp
          have hm2 := mergeBufPairs_snd b₂ ab₂ hp
          rcases hp1 : MergeBufPairs b₁ ab₁ hp with ⟨a₁, nb₁⟩
          rcases hp2 : MergeBufPairs b₂ ab₂ hp with ⟨a₂, nb₂⟩
          rw [hp1] at hm1
          rw [hp2] at hm2
          simp only at hm1 hm2
          rw [hlen]
          apply ih
          · exact ht
          · constructor
            · rw [hm1.1, hm2.1, hdata, hab.1]
            · rw [hm1.2, hm2.2]
              constructor
              · rintro ⟨ha, hb2⟩
                exact ⟨hab.2.mp ha, herrs.mp hb2⟩
              · rintro ⟨ha, hb2⟩
                exact ⟨hab.2.mpr ha, herrs.mpr hb2⟩

theorem resolveObject_relA (rc : ResolveChild) (hrc : ChildRelA rc) (nullable : Bool)
    (path : List String) (fields : List ObjField) :
    ∀ (ctx₁ ctx₂ : Ctx) (data : RData) (ob₁ ob₂ : BufPair), BufRel ob₁ ob₂ →
      RelA (resolveObject rc nullable path fields ctx₁ data ob₁)
           (resolveObject rc nullable path fields ctx₂ data ob₂) := by
  intro ctx₁ ctx₂ data ob₁ ob₂ hob
  simp only [resolveObject]
  by_cases hp : path.length ≠ 0
  · simp only [if_pos hp]
    by_cases hz : (jsonRawBytes (jsonGet data path)).length = 0
    · simp only [if_pos hz]
      cases nullable
      · simp [RelA, addResolveError_data, hob.1,
          addResolveError_errors_ne ctx₁ ob₁, addResolveError_errors_ne ctx₂ ob₂]
      · simp [RelA, resolveNull, hob.1, hob.2]
    · simp only [if_neg hz]
      exact resolveObjectFields_relA rc hrc nullable fields ctx₁ ctx₂ _ ob₁ ob₂
        emptyBufPair emptyBufPair false true hob ⟨rfl, Iff.rfl⟩
  · simp only [if_neg hp]
    exact resolveObjectFields_relA rc hrc nullable fields ctx₁ ctx₂ data ob₁ ob₂
      emptyBufPair emptyBufPair false true hob ⟨rfl, Iff.rfl⟩

theorem resolveArrayAsynchronous_relA (rc : ResolveChild) (hrc : ChildRelA rc)
    (nullable : Bool) (item : Node) :
    ∀ (items : List RData) (ctx₁ ctx₂ : Ctx) (ab₁ ab₂ : BufPair), BufRel ab₁ ab₂ →
      RelA (resolveArrayAsynchronous rc nullable item items ctx₁ ab₁)
           (resolveArrayAsynchronous rc nullable item items ctx₂ ab₂) := by
  intro items ctx₁ ctx₂ ab₁ ab₂ hab
  simp only [resolveArrayAsynchronous]
  have hasync := resolveArrayItemsAsync_relA rc hrc item items 0 ctx₁ ctx₂
  rcases ha1 : resolveArrayItemsAsync rc item items 0 ctx₁ with _ | l₁ <;>
    rcases ha2 : resolveArrayItemsAsync rc item items 0 ctx₂ with _ | l₂ <;>
      rw [ha1, ha2] at hasync
  · simp [RelA]
  · exact absurd hasync (by simp)
  · exact absurd hasync (by simp)
  · simp only []
    rw [firstAsyncError_congr l₁ l₂ hasync]
    cases hfe : firstAsyncError l₂ with
    | some e =>
        by_cases hcase : e = GoError.nonNullableFieldValueIsNull ∧ nullable = true
        · simp [RelA, if_pos hcase, resolveNull, hab.2]
        · simp [RelA, if_neg hcase, hab.1, hab.2]
    | none =>
        have hm := mergeAsyncResults_relA l₁ l₂
          { ab₁ with data := ab₁.data ++ lBrack } { ab₂ with data := ab₂.data ++ lBrack }
          false 0 hasync ⟨by simp [hab.1], hab.2⟩
        simp [RelA, hm.1, hm.2]

theorem resolveArray_relA (rc : ResolveChild) (hrc : ChildRelA rc) (nullable : Bool)
    (path : List String) (asyn : Bool) (item : Node) (stream : StreamCfg) :
    ∀ (ctx₁ ctx₂ : Ctx) (data : RData) (ab₁ ab₂ : BufPair), BufRel ab₁ ab₂ →
      RelA (resolveArray rc nullable path asyn item stream ctx₁ data ab₁)
           (resolveArray rc nullable path asyn item stream ctx₂ data ab₂) := by
  intro ctx₁ ctx₂ data ab₁ ab₂ hab
  simp only [resolveArray]
  by_cases h1 : jsonRawBytes data = emptyArrayBytes
  · simp [RelA, if_pos h1, resolveEmptyArray, hab.1, hab.2]
  · simp only [if_neg h1]
    by_cases h2 : (collectArrayItems data path).length = 0
    · simp only [if_pos h2]
      cases nullable <;> simp [RelA, resolveEmptyArray, resolveNull, hab.1, hab.2]
    · simp only [if_neg h2]
      by_cases h3 : asyn = true ∧ (!stream.enabled) = true
      · simp only [if_pos h3]
        exact resolveArrayAsynchronous_relA rc hrc nullable item _ ctx₁ ctx₂ ab₁ ab₂ hab
      · simp only [if_neg h3]
        have h := resolveArraySynchronousLoop_relA rc hrc nullable item stream
          (collectArrayItems data path) 0 ctx₁ ctx₂
          { ab₁ with data := ab₁.data ++ lBrack } { ab₂ with data := ab₂.data ++ lBrack }
          emptyBufPair emptyBufPair false 0 ⟨by simp [hab.1], hab.2⟩ ⟨rfl, Iff.rfl⟩
        simpa [resolveArraySynchronous] using h

/-- Context-independence of the resolver's observable data behaviour:
two runs of the same node on the same data from data-equal,
equally-empty buffers agree on fuel exhaustion, the returned error,
the data bytes written, and the emptiness of the errors buffer,
whatever the two contexts are. -/
theorem resolveNode_relA : ∀ (fuel : Nat), ChildRelA (resolveNode fuel) := by
  intro fuel
  induction fuel with
  | zero =>
      intro n d ctx₁ ctx₂ b₁ b₂ hb
      simp [resolveNode, RelA]
  | succ fuel ih =>
      intro n d ctx₁ ctx₂ b₁ b₂ hb
      cases n with
      | object nullable path fields =>
          simp only [resolveNode]
          exact resolveObject_relA _ ih nullable path fields ctx₁ ctx₂ d b₁ b₂ hb
      | array nullable path asyn item stream =>
          simp only [resolveNode]
          exact resolveArray_relA _ ih nullable path asyn item stream ctx₁ ctx₂ d b₁ b₂ hb
      | nullValue dcfg =>
          simp [resolveNode, RelA, resolveNull, hb.1, hb.2]
      | string p nullable =>
          simp only [resolveNode]
          have h := relA_of_uniform _ (resolveString_uniform p nullable d) ctx₁ ctx₂ b₁ b₂ hb
          rcases hs1 : resolveString p nullable d b₁ with ⟨buf₁, e₁⟩
          rcases hs2 : resolveString p nullable d b₂ with ⟨buf₂, e₂⟩
          rw [hs1, hs2] at h
          exact h
      | boolean p nullable =>
          simp only [resolveNode]
          have h := relA_of_uniform _ (resolveBoolean_uniform p nullable d) ctx₁ ctx₂ b₁ b₂ hb
          rcases hs1 : resolveBoolean p nullable d b₁ with ⟨buf₁, e₁⟩
          rcases hs2 : resolveBoolean p nullable d b₂ with ⟨buf₂, e₂⟩
          rw [hs1, hs2] at h
          exact h
      | integer p nullable =>
          simp only [resolveNode]
          have h := relA_of_uniform _ (resolveInteger_uniform p nullable d) ctx₁ ctx₂ b₁ b₂ hb
          rcases hs1 : resolveInteger p nullable d b₁ with ⟨buf₁, e₁⟩
          rcases hs2 : resolveInteger p nullable d b₂ with ⟨buf₂, e₂⟩
          rw [hs1, hs2] at h
          exact h
      | float p nullable =>
          simp only [resolveNode]
          have h := relA_of_uniform _ (resolveFloat_uniform p nullable d) ctx₁ ctx₂ b₁ b₂ hb
          rcases hs1 : resolveFloat p nullable d b₁ with ⟨buf₁, e₁⟩
          rcases hs2 : resolveFloat p nullable d b₂ with ⟨buf₂, e₂⟩
          rw [hs1, hs2] at h
          exact h
      | emptyObject =>
          simp [resolveNode, RelA, resolveEmptyObject, hb.1, hb.2]
      | emptyArray =>
          simp [resolveNode, RelA, resolveEmptyArray, hb.1, hb.2]

/-! ## Claim C2: synchronous vs asynchronous array resolution -/

/-- Element plan and data of the C2 counterexample: a non-nullable
object whose field `a` is a nullable object that catches a failing
non-nullable inner object (writing an `unable to resolve` error) and
whose field `b` fails non-nullably on the second element. -/
def cxD : Node := .object false ["p"] [ .mk "s" (.string (some ["q"]) true) ⟨0, 0⟩ none ]

def cxB : Node := .object true [] [ .mk "x" cxD ⟨0, 0⟩ none ]

def cxA : Node :=
  .object false [] [ .mk "a" cxB ⟨0, 0⟩ none, .mk "b" (.integer ["c"] false) ⟨0, 0⟩ none ]

def cxd0 : RData := some (.obj (.cons "c" (.num "1") .nil))

def cxd1 : RData := some (.obj .nil)

/-- C2: the claim that the synchronous and asynchronous array
resolutions produce identical buffer contents is false in general: the
second element fails non-nullably after the first element already
merged its resolve-error bytes into the synchronous array buffer,
while on an element failure the asynchronous path returns the array
buffer without having merged any per-element buffer, so the errors
buffers differ. -/
theorem claim2_counterexample :
    (resolveArraySynchronous (resolveNode 10) true cxA ⟨false, 0, 0⟩ [cxd0, cxd1] newCtx
        emptyBufPair).map (fun r => (r.buf, r.err)) ≠
      (resolveArrayAsynchronous (resolveNode 10) true cxA [cxd0, cxd1] newCtx
          emptyBufPair).map (fun r => (r.buf, r.err)) := by
  decide

/-- A clean element at its index: for every context whose path stack is
the array position plus the element index, the element resolves to one
fixed buffer pair and error — success (error bytes allowed) or a
type-name skip that wrote nothing — and restores the path stack.  The
quantification over contexts captures that the element result depends
on the context only through the path stack, which holds for clean
elements because every surviving error they write embeds only the path
stack and a field position. -/
def CleanTotalItem (rc : ResolveChild) (item : Node) (base : List String) (i : Nat)
    (d : RData) : Prop :=
  ∃ b e, (e = none ∨ (e = some GoError.typeNameSkipped ∧ b = emptyBufPair)) ∧
    ∀ c : Ctx, c.pathElements = base ++ [toString i] →
      ∃ c2, rc c item d emptyBufPair = some ⟨c2, b, e⟩ ∧ c2.pathElements = c.pathElements

/-- The fixed per-element results of a clean element list, indexed
from `i`. -/
def EntriesTotal (rc : ResolveChild) (item : Node) (base : List String) :
    Nat → List RData → List (BufPair × Option GoError) → Prop
  | _, [], [] => True
  | i, d :: ds, (b, e) :: tl =>
      ((e = none ∨ (e = some GoError.typeNameSkipped ∧ b = emptyBufPair)) ∧
        ∀ c : Ctx, c.pathElements = base ++ [toString i] →
          ∃ c2, rc c item d emptyBufPair = some ⟨c2, b, e⟩ ∧
            c2.pathElements = c.pathElements) ∧
      EntriesTotal rc item base (i + 1) ds tl
  | _, _, _ => False

theorem cleanTotalItem_congr (rc : ResolveChild) (item : Node) (base : List String)
    {i j : Nat} (h : i = j) (d : RData) :
    CleanTotalItem rc item base i d → CleanTotalItem rc item base j d := by
  intro x
  rw [← h]
  exact x

theorem entriesTotal_of_clean (rc : ResolveChild) (item : Node) (base : List String) :
    ∀ (items : List RData) (i : Nat),
      (∀ (j : Nat) (h : j < items.length), CleanTotalItem rc item base (i + j) items[j]) →
      ∃ l, EntriesTotal rc item base i items l := by
  intro items
  induction items with
  | nil =>
      intro i _
      exact ⟨[], trivial⟩
  | cons d ds ih =>
      intro i h
      obtain ⟨b, e, hbe, hall⟩ := h 0 (by simp)
      obtain ⟨l, hl⟩ := ih (i + 1) (fun j hj =>
        cleanTotalItem_congr rc item base (show i + (j + 1) = (i + 1) + j by omega) _
          (h (j + 1) (Nat.succ_lt_succ hj)))
      exact ⟨(b, e) :: l, ⟨hbe, hall⟩, hl⟩

/-- Under the clean hypothesis every goroutine result is exactly the
element's fixed buffer pair and error: the clone pushes the same path
element the hypothesis quantifies over. -/
theorem asyncItems_total (rc : ResolveChild) (item : Node) (base : List String) :
    ∀ (items : List RData) (l : List (BufPair × Option GoError)) (i : Nat) (ctx : Ctx),
      EntriesTotal rc item base i items l → ctx.pathElements = base →
      resolveArrayItemsAsync rc item items i ctx = some l := by
  intro items
  induction items with
  | nil =>
      intro l i ctx hET _
      cases l with
      | nil => rw [resolveArrayItemsAsync]
      | cons x tl => exact absurd hET (by simp [EntriesTotal])
  | cons d ds ih =>
      intro l i ctx hET hbase
      cases l with
      | nil => exact absurd hET (by simp [EntriesTotal])
      | cons x tl =>
          obtain ⟨bx, ex⟩ := x
          obtain ⟨⟨hbe, hall⟩, hET2⟩ := hET
          obtain ⟨c2, hrun, hpres⟩ := hall ((ctx.clone).addPathElement (toString i))
            (by simp [Ctx.clone, Ctx.addPathElement, hbase])
          simp only [resolveArrayItemsAsync, hrun, ih tl (i + 1) ctx hET2 hbase]

/-- Clean results never win the one-slot error channel. -/
theorem firstAsyncError_total (rc : ResolveChild) (item : Node) (base : List String) :
    ∀ (items : List RData) (l : List (BufPair × Option GoError)) (i : Nat),
      EntriesTotal rc item base i items l → firstAsyncError l = none := by
  intro items
  induction items with
  | nil =>
      intro l i hET
      cases l with
      | nil => rfl
      | cons x tl => exact absurd hET (by simp [EntriesTotal])
  | cons d ds ih =>
      intro l i hET
      cases l with
      | nil => exact absurd hET (by simp [EntriesTotal])
      | cons x tl =>
          obtain ⟨bx, ex⟩ := x
          obtain ⟨⟨hbe, _⟩, hET2⟩ := hET
          rcases hbe with he | ⟨he, _⟩
          · subst he
            rw [firstAsyncError]
            exact ih tl (i + 1) hET2
          · subst he
            rw [firstAsyncError, if_pos rfl]
            exact ih tl (i + 1) hET2

/-- With every element clean, the synchronous loop produces exactly
the asynchronous post-join merge of the fixed per-element results —
the two sides perform the very same `MergeBufPairs` calls (data and
errors alike) in the same order. -/
theorem syncLoop_total_eq (rc : ResolveChild) (nullable : Bool) (item : Node) (N P : Int)
    (base : List String) :
    ∀ (items : List RData) (l : List (BufPair × Option GoError)) (i : Nat),
      EntriesTotal rc item base i items l →
      ∀ (ctx : Ctx) (arrayBuf : BufPair) (hp : Bool) (dw : Nat),
        ctx.pathElements = base → (hp = false → dw = 0) →
        ∃ ctx2,
          resolveArraySynchronousLoop rc nullable item ⟨false, N, P⟩ items i ctx arrayBuf
              emptyBufPair hp dw =
            some ⟨ctx2,
              { mergeAsyncResults l arrayBuf hp dw with
                  data := (mergeAsyncResults l arrayBuf hp dw).data ++ rBrack }, none⟩ := by
  intro items
  induction items with
  | nil =>
      intro l i hET ctx arrayBuf hp dw _ _
      cases l with
      | nil =>
          rw [resolveArraySynchronousLoop, mergeAsyncResults]
          exact ⟨ctx, rfl⟩
      | cons x tl => exact absurd hET (by simp [EntriesTotal])
  | cons d ds ih =>
      intro l i hET ctx arrayBuf hp dw hbase hinv
      cases l with
      | nil => exact absurd hET (by simp [EntriesTotal])
      | cons x tl =>
          obtain ⟨bx, ex⟩ := x
          obtain ⟨⟨hbe, hall⟩, hET2⟩ := hET
          rw [resolveArraySynchronousLoop]
          have hst : ¬((⟨false, N, P⟩ : StreamCfg).enabled = true ∧
              (i : Int) > (⟨false, N, P⟩ : StreamCfg).initialBatchSize - 1) := by simp
          simp only [if_neg hst]
          obtain ⟨c2, hrun, hpres⟩ := hall (ctx.addIntegerPathElement i)
            (by simp [Ctx.addIntegerPathElement, Ctx.addPathElement, hbase])
          have hbase2 : (c2.removeLastPathElement).pathElements = base := by
            simp [Ctx.removeLastPathElement, hpres, Ctx.addIntegerPathElement,
              Ctx.addPathElement, hbase, List.dropLast_concat]
          rcases hbe with he | ⟨he, hb⟩
          · subst he
            simp only [hrun]
            simp only [mergeAsyncResults]
            rcases hmp : MergeBufPairs bx arrayBuf hp with ⟨ib2, ab2⟩
            have hib2 : ib2 = emptyBufPair := by
              have h := mergeBufPairs_fst bx arrayBuf hp
              rw [hmp] at h
              exact h
            simp only [hib2]
            refine ih tl (i + 1) hET2 (c2.removeLastPathElement) ab2 _ _ hbase2 ?_
            intro h
            by_cases hcnd : ((!hp) = true ∧ dw + bx.data.length ≠ 0)
            · rw [if_pos hcnd] at h
              exact absurd h (by simp)
            · rw [if_neg hcnd] at h
              subst h
              have hx : ¬(dw + bx.data.length ≠ 0) := fun hn => hcnd ⟨rfl, hn⟩
              omega
          · subst he
            subst hb
            simp only [hrun]
            rw [if_pos trivial]
            simp only [mergeAsyncResults]
            have hmp0 : MergeBufPairs emptyBufPair arrayBuf hp = (emptyBufPair, arrayBuf) := rfl
            have hlen0 : dw + emptyBufPair.data.length = dw := rfl
            simp only [hmp0, hlen0]
            have hhp : (if (!hp) = true ∧ dw ≠ 0 then true else hp) = hp := by
              cases hp
              · rw [if_neg]
                rintro ⟨_, hn⟩
                exact hn (hinv rfl)
              · rw [if_neg]
                rintro ⟨hb2, _⟩
                exact absurd hb2 (by simp)
            rw [hhp]
            exact ih tl (i + 1) hET2 (c2.removeLastPathElement) arrayBuf hp dw hbase2 hinv

/-- C2 (amended): byte-for-byte equality of the data and errors
buffers and of the returned error between the synchronous
(stream-disabled) and asynchronous array resolutions holds whenever
every element is clean at its index — it resolves, determined by the
path stack, to a fixed buffer pair and either succeeds (error bytes
allowed: both paths merge each element's full buffer pair, data and
errors, in index order with the same comma logic) or is a type-name
skip that wrote nothing.  The outputs can differ only through an
unclean element, as in the counterexample's non-null failure after an
element that had merged error bytes. -/
theorem claim2_amended (fuel : Nat) (nullable : Bool) (item : Node) (N P : Int)
    (items : List RData) (ctx : Ctx) (arrayBuf : BufPair)
    (hcl : ∀ (j : Nat) (h : j < items.length),
      CleanTotalItem (resolveNode fuel) item ctx.pathElements j items[j]) :
    (resolveArraySynchronous (resolveNode fuel) nullable item ⟨false, N, P⟩ items ctx
        arrayBuf).map (fun r => (r.buf, r.err)) =
      (resolveArrayAsynchronous (resolveNode fuel) nullable item items ctx arrayBuf).map
        (fun r => (r.buf, r.err)) := by
  obtain ⟨l, hET⟩ := entriesTotal_of_clean (resolveNode fuel) item ctx.pathElements items 0
    (fun j hj => cleanTotalItem_congr (resolveNode fuel) item ctx.pathElements
      (show j = 0 + j by omega) _ (hcl j hj))
  have hl := asyncItems_total (resolveNode fuel) item ctx.pathElements items l 0 ctx hET rfl
  have hfe := firstAsyncError_total (resolveNode fuel) item ctx.pathElements items l 0 hET
  obtain ⟨ctx2, hsync⟩ := syncLoop_total_eq (resolveNode fuel) nullable item N P
    ctx.pathElements items l 0 hET ctx { arrayBuf with data := arrayBuf.data ++ lBrack }
    false 0 rfl (fun _ => rfl)
  simp only [resolveArraySynchronous, resolveArrayAsynchronous]
  rw [hsync, hl]
  simp only [hfe, Option.map_some]
  rfl

/-- The witness element: a nullable object catching a failing
non-nullable inner object, so its clean result carries error bytes. -/
def c2wItem : Node :=
  .object true []
    [ .mk "x" (.object false ["p"] [ .mk "s" (.string (some ["q"]) true) ⟨1, 2⟩ none ]) ⟨3, 4⟩
        none ]

def c2wD : RData := some (.obj .nil)

/-- The witness element's fixed result: null data plus the merged
`unable to resolve` error bytes. -/
def c2wBuf : BufPair :=
  ⟨"null",
   "\x7b\"message\":\"unable to resolve\",\"locations\":[\x7b\"line\":3,\"column\":4\x7d],\"path\":[\"0\",\"x\"]\x7d"⟩

/-- C2 witness: a one-element list whose element succeeds while
writing error bytes; the synchronous and asynchronous resolutions
coincide on it. -/
theorem claim2_witness :
    (∀ (j : Nat) (h : j < [c2wD].length),
        CleanTotalItem (resolveNode 3) c2wItem newCtx.pathElements j [c2wD][j]) ∧
      (resolveArraySynchronous (resolveNode 3) true c2wItem ⟨false, 5, 0⟩ [c2wD] newCtx
          emptyBufPair).map (fun r => (r.buf, r.err)) =
        (resolveArrayAsynchronous (resolveNode 3) true c2wItem [c2wD] newCtx
            emptyBufPair).map (fun r => (r.buf, r.err)) := by
  have hcl : ∀ (j : Nat) (h : j < [c2wD].length),
      CleanTotalItem (resolveNode 3) c2wItem newCtx.pathElements j [c2wD][j] := by
    intro j hj
    have hj0 : j = 0 := by
      simpa using hj
    subst hj0
    refine ⟨c2wBuf, none, Or.inl rfl, ?_⟩
    intro c hc
    obtain ⟨v, hd, pe, pa, cp, mp, pf, pos⟩ := c
    have hpe : pe = ["0"] := by
      rw [show newCtx.pathElements ++ [toString 0] = ["0"] from rfl] at hc
      exact hc
    subst hpe
    refine ⟨{ vars := v, headers := hd, pathElements := ["0"], patches := pa,
              currentPatch := cp, maxPatch := mp, pathPfx := pf, position := ⟨3, 4⟩ }, ?_, rfl⟩
    with_unfolding_all rfl
  exact ⟨hcl, claim2_amended 3 true c2wItem 5 0 [c2wD] newCtx emptyBufPair hcl⟩
